import Mathlib

/-!
# Verification of the YouTube bilingual-subtitle proxy

A shallow embedding of the caching translation pipeline of the
`youtube-subtitle-proxy` repository, together with theorems settling the
frozen claims about it.  Each definition is translated from the TypeScript
source file named in its doc comment; timestamps are `Int` milliseconds,
JavaScript strings are Lean `String`s (UTF-16 surrogate pairs are not
modelled; all inputs of interest are in the basic plane).
-/

set_option maxRecDepth 10000

namespace YtProxy

/-- Internal subtitle cue (`src/types/subtitle.ts`): `startTime`/`endTime`
are millisecond timestamps and `text` the cue text. -/
structure SubtitleCue where
  startTime : Int
  endTime : Int
  text : String
deriving DecidableEq, Repr

/-! ## JavaScript string primitives

Models of the JavaScript string operations used by the segmenter
(`src/subtitle/segment.ts`).  The `\s` character class is modelled by its
ASCII members, which covers every input appearing in the repository. -/

/-- Model of the JavaScript `\s` class (ASCII part): space, tab, newline,
carriage return, vertical tab, form feed. -/
def isJsWs (c : Char) : Bool :=
  c = ' ' || c = '\t' || c = '\n' || c = '\r' || c = Char.ofNat 11 || c = Char.ofNat 12

/-- Model of JavaScript `String.prototype.trim`. -/
def jsTrim (s : String) : String :=
  ⟨((s.data.dropWhile isJsWs).reverse.dropWhile isJsWs).reverse⟩

/-- Worker for `countWords`: counts maximal non-whitespace runs, tracking
whether the scan is currently inside a run. -/
def wordRunsAux (inWord : Bool) : List Char → Nat
  | [] => 0
  | c :: rest =>
    if isJsWs c then wordRunsAux false rest
    else (if inWord then 0 else 1) + wordRunsAux true rest

/-- Word counter of `segment.ts` (`countWords`): trim, then count the
maximal non-whitespace runs (`trimmed.split(/\s+/).length` on a trimmed
non-empty string). -/
def wordRuns (cs : List Char) : Nat := wordRunsAux false cs

/-- `countWords` from `segment.ts`. -/
def countWords (text : String) : Nat :=
  let trimmed := jsTrim text
  if trimmed = "" then 0 else wordRuns trimmed.data

/-- `shouldBreakOnPunctuation` from `segment.ts`: the trimmed text ends in
sentence-terminating punctuation (ASCII or CJK). -/
def shouldBreakOnPunctuation (text : String) : Bool :=
  match (jsTrim text).data.getLast? with
  | none => false
  | some c => c = '.' || c = '!' || c = '?' || c = '…' || c = '。' || c = '！' || c = '？'

/-- Left brace character, written via its code point. -/
def lbrace : Char := Char.ofNat 123

/-- Right brace character, written via its code point. -/
def rbrace : Char := Char.ofNat 125

/-- Single-quote character, written via its code point. -/
def squote : Char := Char.ofNat 39

/-- Worker for the `\s+P → P` regex replaces of `normalizeMergedText`:
`acc` is the (reversed) pending whitespace run. -/
def squeezeBeforeAux (ps : List Char) (acc : List Char) : List Char → List Char
  | [] => acc.reverse
  | c :: rest =>
    if isJsWs c then squeezeBeforeAux ps (c :: acc) rest
    else if acc ≠ [] ∧ c ∈ ps then c :: squeezeBeforeAux ps [] rest
    else acc.reverse ++ c :: squeezeBeforeAux ps [] rest

/-- Model of `text.replace(/\s+([P])/g, "$1")` for a punctuation class `ps`. -/
def squeezeBefore (ps : List Char) (cs : List Char) : List Char :=
  squeezeBeforeAux ps [] cs

/-- Model of `text.replace(/([O])\s+/g, "$1")` for an opener class `os`:
whitespace directly after an opener is dropped. -/
def squeezeAfter (os : List Char) : Bool → List Char → List Char
  | _, [] => []
  | afterOp, c :: rest =>
    if afterOp ∧ isJsWs c then squeezeAfter os true rest
    else c :: squeezeAfter os (c ∈ os) rest

/-- Worker for `text.replace(/\s{2,}/g, " ")`: `run` is the (reversed)
pending whitespace run; a run of length one is kept verbatim, a longer run
collapses to a single space. -/
def collapseWsAux (run : List Char) : List Char → List Char
  | [] => match run with
    | [] => []
    | [c] => [c]
    | _ => [' ']
  | c :: rest =>
    if isJsWs c then collapseWsAux (c :: run) rest
    else (match run with
      | [] => []
      | [d] => [d]
      | _ => [' ']) ++ c :: collapseWsAux [] rest

/-- ASCII punctuation class of the first replace in `normalizeMergedText`. -/
def asciiPunct : List Char := [',', '.', ';', ':', '!', '?']

/-- CJK punctuation class of the second replace in `normalizeMergedText`. -/
def cjkPunct : List Char := ['，', '。', '！', '？', '；', '：']

/-- Opening bracket/quote class of the third replace. -/
def openerChars : List Char := ['(', '[', lbrace, '“', '‘']

/-- Closing bracket/quote class of the fourth replace. -/
def closerChars : List Char := [')', ']', rbrace, squote, '"', '”', '’']

/-- `normalizeMergedText` from `segment.ts`: remove spaces before closing
punctuation, spaces on the inner side of brackets/quotes, collapse
whitespace runs, trim. -/
def normalizeMergedText (text : String) : String :=
  let s1 := squeezeBefore asciiPunct text.data
  let s2 := squeezeBefore cjkPunct s1
  let s3 := squeezeAfter openerChars false s2
  let s4 := squeezeBefore closerChars s3
  let s5 := collapseWsAux [] s4
  jsTrim ⟨s5⟩

/-! ## Segmenter (`mergeSubtitleCues`, `src/subtitle/segment.ts`)

The source resolves each unset option from `getConfig()` with `??`; the
embedding takes the resolved values as an explicit record. -/

/-- Resolved options of `mergeSubtitleCues` (defaults in `config/env.ts`:
3000 / 7000 / 1200; `maxChars`/`maxWords` of `0` disable those limits). -/
structure MergeOpts where
  minDurationMs : Int
  maxDurationMs : Int
  gapThresholdMs : Int
  maxChars : Nat
  maxWords : Nat
deriving DecidableEq, Repr

/-- The open paragraph of the merge loop: `groupStartTime`, `groupEndTime`,
the collected pieces, the running character and word counts, and
`lastEndTime`. -/
structure OpenGroup where
  startTime : Int
  endTime : Int
  pieces : List String
  chars : Nat
  words : Nat
  lastEnd : Int
deriving DecidableEq, Repr

/-- Open a fresh paragraph from a (trimmed, non-empty) cue text, as done at
paragraph start and after a hard break. -/
def newGroup (cue : SubtitleCue) (norm : String) : OpenGroup :=
  ⟨cue.startTime, cue.endTime, [norm], norm.length, countWords norm, cue.endTime⟩

/-- Close a paragraph into an output cue:
`normalizeMergedText(currentGroup.join(' '))` with the group's timing. -/
def closeGroup (g : OpenGroup) : SubtitleCue :=
  ⟨g.startTime, g.endTime, normalizeMergedText (String.intercalate " " g.pieces)⟩

/-- State of the merge loop: emitted cues so far and the open paragraph. -/
def MergeState := List SubtitleCue × Option OpenGroup

/-- The hard-break condition of `mergeSubtitleCues`:
`durationWithCue >= maxDuration || gap > gapThreshold`. -/
def hardBreakCond (opts : MergeOpts) (g : OpenGroup) (cue : SubtitleCue) : Prop :=
  cue.endTime - g.startTime ≥ opts.maxDurationMs ∨ cue.startTime - g.lastEnd > opts.gapThresholdMs

instance (opts : MergeOpts) (g : OpenGroup) (cue : SubtitleCue) :
    Decidable (hardBreakCond opts g cue) := by
  unfold hardBreakCond; infer_instance

/-- The soft-break condition, evaluated after the cue has been appended:
`durationWithCue >= minDuration && (punctuation || maxChars hit || maxWords hit)`. -/
def softBreakCond (opts : MergeOpts) (g : OpenGroup) (cue : SubtitleCue) (norm : String) : Prop :=
  cue.endTime - g.startTime ≥ opts.minDurationMs ∧
    (shouldBreakOnPunctuation norm = true ∨
      (opts.maxChars > 0 ∧ g.chars + norm.length + 1 ≥ opts.maxChars) ∨
      (opts.maxWords > 0 ∧ g.words + countWords norm ≥ opts.maxWords))

instance (opts : MergeOpts) (g : OpenGroup) (cue : SubtitleCue) (norm : String) :
    Decidable (softBreakCond opts g cue norm) := by
  unfold softBreakCond; infer_instance

/-- The loop body of `mergeSubtitleCues` for one incoming cue. -/
def mergeStep (opts : MergeOpts) (st : MergeState) (cue : SubtitleCue) : MergeState :=
  let norm := jsTrim cue.text
  if norm = "" then st
  else
    match st.2 with
    | none => (st.1, some (newGroup cue norm))
    | some g =>
      if hardBreakCond opts g cue then
        (st.1 ++ [closeGroup g], some (newGroup cue norm))
      else
        let g2 : OpenGroup :=
          ⟨g.startTime, cue.endTime, g.pieces ++ [norm],
            g.chars + norm.length + 1, g.words + countWords norm, cue.endTime⟩
        if softBreakCond opts g cue norm then
          (st.1 ++ [closeGroup g2], none)
        else
          (st.1, some g2)

/-- Fold the final (too short) paragraph into the last emitted cue:
extend its `endTime` and re-normalize the joined text. -/
def foldIntoLast (xs : List SubtitleCue) (e : Int) (t : String) : List SubtitleCue :=
  match xs with
  | [] => []
  | [last] => [⟨last.startTime, e, normalizeMergedText (last.text ++ " " ++ t)⟩]
  | x :: rest => x :: foldIntoLast rest e t

/-- The after-loop flush of `mergeSubtitleCues`: emit the open paragraph,
folding it into its predecessor when it is shorter than `minDurationMs`. -/
def mergeFinal (opts : MergeOpts) (st : MergeState) : List SubtitleCue :=
  match st.2 with
  | none => st.1
  | some g =>
    let normalizedText := normalizeMergedText (String.intercalate " " g.pieces)
    if g.endTime - g.startTime < opts.minDurationMs ∧ st.1 ≠ [] then
      foldIntoLast st.1 g.endTime normalizedText
    else
      st.1 ++ [⟨g.startTime, g.endTime, normalizedText⟩]

/-- `mergeSubtitleCues` from `src/subtitle/segment.ts` (the elaborated
draft with `maxChars`/`maxWords`), with options resolved. -/
def mergeSubtitleCues (cues : List SubtitleCue) (opts : MergeOpts) : List SubtitleCue :=
  if cues = [] then []
  else mergeFinal opts (cues.foldl (mergeStep opts) ([], none))

/-! ## Cue deduplication (`deduplicateCues`, `src/subtitle/segment.ts`)

The source keys each cue by the template string
`startTime + "-" + endTime + "-" + text` and keeps the first cue per key.
Number-to-string conversion is modelled by decimal rendering. -/

/-- Little-endian decimal digits, with structural fuel so that the kernel
can evaluate it (the fuel `n` always suffices). -/
def natDigitsAux : Nat → Nat → List Nat
  | 0, _ => []
  | fuel + 1, n => if n = 0 then [] else n % 10 :: natDigitsAux fuel (n / 10)

/-- Little-endian decimal digits of a natural number. -/
def natDigitsLSF (n : Nat) : List Nat := natDigitsAux n n

/-- Decimal rendering of a natural number, most significant digit first,
as JavaScript renders a non-negative number in a template string. -/
def natChars (n : Nat) : List Char :=
  if n = 0 then ['0'] else (natDigitsLSF n).reverse.map Nat.digitChar

/-- Decimal rendering of an integer (leading `-` for negatives), as
JavaScript renders an integral number in a template string. -/
def intChars (i : Int) : List Char :=
  if i < 0 then '-' :: natChars i.natAbs else natChars i.toNat

/-- Character list of the dedup key
`` `${cue.startTime}-${cue.endTime}-${cue.text}` ``. -/
def cueKeyChars (c : SubtitleCue) : List Char :=
  intChars c.startTime ++ '-' :: (intChars c.endTime ++ '-' :: c.text.data)

/-- The dedup key of `deduplicateCues`. -/
def cueKey (c : SubtitleCue) : String := ⟨cueKeyChars c⟩

/-- The loop of `deduplicateCues`: `seen` is the set of keys seen so far. -/
def dedupGo (seen : List String) : List SubtitleCue → List SubtitleCue
  | [] => []
  | c :: rest =>
    if cueKey c ∈ seen then dedupGo seen rest
    else c :: dedupGo (cueKey c :: seen) rest

/-- `deduplicateCues` from `src/subtitle/segment.ts`. -/
def deduplicateCues (cues : List SubtitleCue) : List SubtitleCue := dedupGo [] cues

/-! ## Translator (`src/services/translator.ts`, the elaborated
context-aware draft)

The LLM is an environment boundary: a batch call's response message
content enters as an `Option String`, `JSON.parse` enters as an oracle
`String → Option Json` (`none` models a parse exception), and the
single-line `translateText` results enter as `Nat → Except String String`
indexed by cue index. -/

instance {ε α : Type} [DecidableEq ε] [DecidableEq α] : DecidableEq (Except ε α) := by
  intro a b
  cases a <;> cases b
  case ok.ok x y =>
    exact if h : x = y then .isTrue (by rw [h]) else .isFalse (by simp [h])
  case error.error x y =>
    exact if h : x = y then .isTrue (by rw [h]) else .isFalse (by simp [h])
  case ok.error x y => exact .isFalse (by simp)
  case error.ok x y => exact .isFalse (by simp)

/-- JSON value as produced by `JSON.parse`.  Numbers are rationals (every
JSON numeral is one). -/
inductive Json where
  | null : Json
  | bool (b : Bool) : Json
  | num (v : ℚ) : Json
  | str (s : String) : Json
  | arr (elems : List Json) : Json
  | obj (fields : List (String × Json)) : Json

/-- A validated `{id, translation}` item of a batch response. -/
structure ParsedTranslation where
  id : Int
  translation : String
deriving DecidableEq, Repr

/-- Property access on a parsed JSON value (`JSON.parse` output carries no
duplicate keys); anything but an object has no own properties of interest. -/
def getField : Json → String → Option Json
  | .obj fields, k => fields.lookup k
  | _, _ => none

/-- Value of a list of ASCII decimal digit characters. -/
def decDigitsVal (cs : List Char) : Nat :=
  cs.foldl (fun acc c => 10 * acc + (c.toNat - 48)) 0

/-- Model of JavaScript `Number(string)` on the decimal subset
`[+-]? digits [. digits]` after trimming (the empty string is `0`);
`none` is `NaN`.  Hexadecimal, exponent and infinity literals do not occur
in the repository's data and are mapped to `none`. -/
def jsStrToNumber (s : String) : Option ℚ :=
  let t := (jsTrim s).data
  if t = [] then some (mkRat 0 1)
  else
    let signed : Int × List Char :=
      match t with
      | '-' :: r => (-1, r)
      | '+' :: r => (1, r)
      | _ => (1, t)
    let ip := signed.2.takeWhile Char.isDigit
    let rest := signed.2.dropWhile Char.isDigit
    match rest with
    | [] => if ip = [] then none else some (mkRat (signed.1 * decDigitsVal ip) 1)
    | '.' :: frac =>
      let fp := frac.takeWhile Char.isDigit
      let rest2 := frac.dropWhile Char.isDigit
      if rest2 = [] ∧ (ip ≠ [] ∨ fp ≠ []) then
        some (mkRat (signed.1 * ((decDigitsVal ip) * 10 ^ fp.length + decDigitsVal fp))
          ((10 : Nat) ^ fp.length))
      else none
    | _ => none

/-- Model of JavaScript `Number(x)` on JSON values (`none` is `NaN`; the
`none` input is `undefined`, a missing property).  `ToPrimitive` on arrays
and objects is not modelled and yields `NaN`. -/
def jsToNumber : Option Json → Option ℚ
  | none => none
  | some .null => some (mkRat 0 1)
  | some (.bool b) => some (mkRat (if b then 1 else 0) 1)
  | some (.num q) => some q
  | some (.str s) => jsStrToNumber s
  | some (.arr _) => none
  | some (.obj _) => none

/-- The id coercion of `parseTranslationBatch`:
`typeof rawId === 'number' ? rawId : Number(rawId)`. -/
def coerceId (rawId : Option Json) : Option ℚ :=
  match rawId with
  | some (.num q) => some q
  | other => jsToNumber other

/-- The nullish-coalescing chain over candidate property names:
`a ?? b` skips `undefined` (missing) and `null` values. -/
def firstNonNullish (item : Json) : List String → Option Json
  | [] => none
  | k :: rest =>
    match getField item k with
    | some .null => firstNonNullish item rest
    | some v => some v
    | none => firstNonNullish item rest

/-- The translation-field lookup of `parseTranslationBatch`:
`item.translation ?? item.translated_text ?? item.text ?? item.initial_translation`. -/
def translationField (item : Json) : Option Json :=
  firstNonNullish item ["translation", "translated_text", "text", "initial_translation"]

/-- Per-item validation of `parseTranslationBatch`: the
`!item || typeof item !== 'object'` guard (only objects and arrays pass),
id coercion with the `Number.isInteger` check, then the translation field,
which must be a string that is non-empty after trimming; the trimmed
translation is kept. -/
def parseItem (item : Json) : Except String ParsedTranslation :=
  match item with
  | .null | .bool _ | .num _ | .str _ =>
    .error "Translation response contains invalid item"
  | _ =>
    match coerceId (getField item "id") with
    | none => .error "Translation response item missing valid id"
    | some q =>
      if q.den = 1 then
        match translationField item with
        | some (.str s) =>
          if jsTrim s = "" then .error "Translation response item missing translation"
          else .ok ⟨q.num, jsTrim s⟩
        | _ => .error "Translation response item missing translation"
      else .error "Translation response item missing valid id"

/-- `parseTranslationBatch` after `JSON.parse`: must be an array of
exactly `expectedCount` items, each passing `parseItem` (the loop throws
at the first bad item). -/
def parseTranslationBatchJ (parsed : Json) (expectedCount : Nat) :
    Except String (List ParsedTranslation) :=
  match parsed with
  | .arr items =>
    if items.length ≠ expectedCount then
      .error "Translation response count mismatch"
    else items.mapM parseItem
  | _ => .error "Translation response is not a JSON array"

/-- Backtick character, written via its code point. -/
def backtick : Char := Char.ofNat 96

/-- ASCII lower-casing for the case-insensitive fence matches. -/
def asciiLower (c : Char) : Char :=
  if 'A' ≤ c ∧ c ≤ 'Z' then Char.ofNat (c.toNat + 32) else c

/-- First replace of `extractJsonArray`: strip a leading fence marked
`json` (case-insensitive) together with following whitespace. -/
def stripJsonFence (cs : List Char) : List Char :=
  match cs with
  | b1 :: b2 :: b3 :: c1 :: c2 :: c3 :: c4 :: rest =>
    if b1 = backtick ∧ b2 = backtick ∧ b3 = backtick ∧ asciiLower c1 = 'j' ∧
        asciiLower c2 = 's' ∧ asciiLower c3 = 'o' ∧ asciiLower c4 = 'n' then
      rest.dropWhile isJsWs
    else cs
  | _ => cs

/-- Second replace: strip a leading bare fence with following whitespace. -/
def stripBareFence (cs : List Char) : List Char :=
  match cs with
  | b1 :: b2 :: b3 :: rest =>
    if b1 = backtick ∧ b2 = backtick ∧ b3 = backtick then rest.dropWhile isJsWs else cs
  | _ => cs

/-- Third replace: strip a trailing fence. -/
def stripTrailingFence (cs : List Char) : List Char :=
  match cs.reverse with
  | b1 :: b2 :: b3 :: rest =>
    if b1 = backtick ∧ b2 = backtick ∧ b3 = backtick then rest.reverse else cs
  | _ => cs

/-- `extractJsonArray` from the translator: trim, strip Markdown fences,
slice from the first `[` to the last `]` (throwing when absent or
crossed), and `JSON.parse` the slice through the oracle. -/
def extractJsonArray (parse : String → Option Json) (text : String) : Except String Json :=
  let trimmed := (jsTrim text).data
  let withoutFences := stripTrailingFence (stripBareFence (stripJsonFence trimmed))
  match withoutFences.findIdx? (· = '['), withoutFences.reverse.findIdx? (· = ']') with
  | some start, some revEnd =>
    let endIdx := withoutFences.length - 1 - revEnd
    if endIdx < start then .error "No JSON array found in translation response"
    else
      match parse ⟨(withoutFences.drop start).take (endIdx + 1 - start)⟩ with
      | some j => .ok j
      | none => .error "JSON.parse threw"
  | _, _ => .error "No JSON array found in translation response"

/-- Read of the slot array `translatedTexts` at a cue index. -/
def slotGet (slots : List (Option String)) (i : Nat) : Option String :=
  (slots.get? i).getD none

/-- JavaScript truthiness of a slot value (`!translatedTexts[id]`). -/
def slotTruthy : Option String → Bool
  | some s => s ≠ ""
  | none => false

/-- The write-and-check loop of `runBatch`: each parsed id must be in the
current batch's id set, its translation is written into the slot array,
and afterwards every expected id must hold a truthy slot.  An error
carries the partially written slot array, mirroring the in-place mutation
of `translatedTexts`. -/
def applyParsed (expectedIds : List Int) (slots : List (Option String)) :
    List ParsedTranslation → Except (String × List (Option String)) (List (Option String))
  | [] =>
    if expectedIds.all (fun i => slotTruthy (slotGet slots i.toNat)) then .ok slots
    else .error ("Missing translation for id in batch", slots)
  | p :: rest =>
    if p.id ∈ expectedIds then
      applyParsed expectedIds (slots.set p.id.toNat (some p.translation)) rest
    else .error ("Unexpected translation id in batch", slots)

/-- The expected absolute indices of the batch `[start, endIdx)` as
integers, the contents of `expectedIds` in `runBatch`. -/
def expectedInts (start endIdx : Nat) : List Int :=
  (List.range' start (endIdx - start)).map Int.ofNat

/-- One attempt of `runBatch` (the `try` body after the chat-completion
call whose message content is `content`; `none` models an absent
message).  Throws on empty content, extraction/parse failure, count or
item validation failure, foreign ids, and uncovered expected ids. -/
def attemptBatch (parse : String → Option Json) (slots : List (Option String))
    (start endIdx : Nat) (content : Option String) :
    Except (String × List (Option String)) (List (Option String)) :=
  match content with
  | none => .error ("Empty translation response from OpenAI", slots)
  | some raw =>
    let t := jsTrim raw
    if t = "" then .error ("Empty translation response from OpenAI", slots)
    else
      match extractJsonArray parse t with
      | .error e => .error (e, slots)
      | .ok j =>
        match parseTranslationBatchJ j (endIdx - start) with
        | .error e => .error (e, slots)
        | .ok parsed => applyParsed (expectedInts start endIdx) slots parsed

/-- The per-line result of `fallbackBatch` for cue index `i`: the
single-line translation when `translateText` succeeds, the original cue
text when it fails. -/
def fallbackValue (cues : List SubtitleCue) (lineResults : Nat → Except String String)
    (i : Nat) : String :=
  match lineResults i with
  | .ok t => t
  | .error _ => ((cues.get? i).getD ⟨0, 0, ""⟩).text

/-- `fallbackBatch`: write a per-line value into every slot of the failed
batch (and only there). -/
def fallbackBatch (cues : List SubtitleCue) (lineResults : Nat → Except String String)
    (start endIdx : Nat) (slots : List (Option String)) : List (Option String) :=
  (List.range' start (endIdx - start)).foldl
    (fun s i => s.set i (some (fallbackValue cues lineResults i))) slots

/-- `runBatch`: try the attempts in order (`batchRetries + 1` of them);
the first success keeps its writes, and when the last attempt fails too,
`fallbackBatch` takes over.  Every attempt error is caught here, so batch
failure never escapes to the caller. -/
def runBatch (parse : String → Option Json) (cues : List SubtitleCue)
    (lineResults : Nat → Except String String) (start endIdx : Nat)
    (slots : List (Option String)) : List (Option String) → List (Option String)
  | [] => slots
  | content :: rest =>
    match attemptBatch parse slots start endIdx content with
    | .ok s => s
    | .error (_, s) =>
      match rest with
      | [] => fallbackBatch cues lineResults start endIdx s
      | _ => runBatch parse cues lineResults start endIdx s rest

/-- The slot array carried by a batch-attempt result (on error, the
partially written array). -/
def exSlots : Except (String × List (Option String)) (List (Option String)) →
    List (Option String)
  | .ok s => s
  | .error (_, s) => s

/-- The slot array after the write loop of `runBatch` (used to reason
about `applyParsed`). -/
def writeAll (ps : List ParsedTranslation) (slots : List (Option String)) :
    List (Option String) :=
  ps.foldl (fun s p => s.set p.id.toNat (some p.translation)) slots

/-- The final assembly of `translateBatchWithContext`:
`cues.map((cue, index) => ({ ...cue, text: translatedTexts[index] ?? cue.text }))`,
with `i` the index of the first cue of the remaining list. -/
def assembleFrom (slots : List (Option String)) : Nat → List SubtitleCue → List SubtitleCue
  | _, [] => []
  | i, c :: rest =>
    ⟨c.startTime, c.endTime, (slotGet slots i).getD c.text⟩ :: assembleFrom slots (i + 1) rest

/-- The translated cue list returned by `translateBatchWithContext`. -/
def assembleContextResult (cues : List SubtitleCue) (slots : List (Option String)) :
    List SubtitleCue :=
  assembleFrom slots 0 cues

/-- The bilingual assembly loop of `translateToBilingual`: element `i`
keeps the timing of original cue `i` and carries
`original.text + "\n" + translated.text` (the source indexes
`translatedCues[i]`; both callers produce a list of the input's length). -/
def bilingualFrom : List SubtitleCue → List SubtitleCue → List SubtitleCue
  | [], _ => []
  | o :: orest, translated =>
    ⟨o.startTime, o.endTime, o.text ++ "\n" ++ (translated.headD ⟨0, 0, ""⟩).text⟩ ::
      bilingualFrom orest translated.tail

/-- `translateToBilingual` on the context-aware path, as a function of the
filled translation slot array. -/
def translateToBilingual (cues : List SubtitleCue) (slots : List (Option String)) :
    List SubtitleCue :=
  bilingualFrom cues (assembleContextResult cues slots)

/-! ## Store, cache, queue and dispatcher
(`src/db/schema.sql`, `src/db/sqlite.ts`, `src/services/cache.ts`,
`src/services/youtube.ts`, `src/queue/queue.ts`, and the elaborated
`GET /api/subtitle` draft of `src/http/routes.ts`)

Time is an explicit `now` parameter.  The SQLite `caption_jobs` table is a
row list in insertion order; the two metadata counters are the `Nat`
fields `cacheHits`/`cacheMisses`.  The LRU's size bound and TTL carry no
claim and are elided: `set` conses and `lookup` takes the first hit.
Upstream fetch and the translation pipeline enter as `Except` values. -/

/-- Job status (`schema.sql` CHECK constraint). -/
inductive JobStatus where
  | pending
  | translating
  | done
  | failed
deriving DecidableEq, Repr

/-- One row of `caption_jobs`. -/
structure JobRow where
  id : String
  videoId : String
  lang : String
  track : String
  fmt : String
  sourceHash : String
  status : JobStatus
  retryCount : Nat
  nextRetryAt : Option Nat
  errorCode : Option String
  errorMessage : Option String
  bilingualJson : Option String
  createdAt : Nat
  updatedAt : Nat
  expiresAt : Nat
deriving DecidableEq, Repr

/-- `SubtitleRequest` (`src/types/subtitle.ts`): `v` and `lang` are
required, the rest optional. -/
structure SubtitleRequest where
  v : String
  lang : String
  tlang : Option String
  kind : Option String
  fmt : Option String
  originalUrl : Option String
deriving DecidableEq, Repr

/-- A queued `TranslationTask` (`src/queue/queue.ts`); `originalJson`
stands for the fetched timedtext document (its `JSON.stringify` form). -/
structure TranslationTask where
  id : String
  params : SubtitleRequest
  originalJson : String
  sourceHash : String
  createdAt : Nat
deriving DecidableEq, Repr

/-- The mutable state of the process: job rows, the two cache counters,
the LRU pairs, and the in-process task queue. -/
structure AppState where
  jobs : List JobRow
  cacheHits : Nat
  cacheMisses : Nat
  lru : List (String × String)
  taskQueue : List TranslationTask
deriving DecidableEq, Repr

/-- JavaScript `a || d` where `a` is an optional string (the empty string
is falsy and also falls back). -/
def orDefault (o : Option String) (d : String) : String :=
  match o with
  | some s => if s = "" then d else s
  | none => d

/-- `generateCacheKey` (`src/services/youtube.ts`):
`[v, lang, tlang || zh-CN, kind || asr, fmt || json3].join('|')`. -/
def generateCacheKey (p : SubtitleRequest) : String :=
  String.intercalate "|"
    [p.v, p.lang, orDefault p.tlang "zh-CN", orDefault p.kind "asr", orDefault p.fmt "json3"]

/-- Split a character list at a separator character
(`cacheKey.split('|')`). -/
def splitOnChar (sep : Char) : List Char → List (List Char)
  | [] => [[]]
  | c :: rest =>
    if c = sep then [] :: splitOnChar sep rest
    else
      match splitOnChar sep rest with
      | [] => [[c]]
      | g :: gs => (c :: g) :: gs

/-- The destructuring `const [videoId, lang] = cacheKey.split('|')`:
component `i` of the split, `none` for `undefined`. -/
def keyPart (key : String) (i : Nat) : Option String :=
  ((splitOnChar '|' key.data).get? i).map (fun cs => ⟨cs⟩)

/-- `ToInt32` wrap-around of JavaScript bitwise operations. -/
def toInt32 (n : Int) : Int := (n + 2 ^ 31) % 2 ^ 32 - 2 ^ 31

/-- One step of the rolling hash in `generateSourceHash`:
`hash = ((hash << 5) - hash) + char; hash = hash & hash`. -/
def hashStep (h : Int) (c : Char) : Int :=
  toInt32 (toInt32 (h * 32) - h + c.toNat)

/-- Base-36 digit character (`0-9a-z`). -/
def base36Char (n : Nat) : Char :=
  if n < 10 then Char.ofNat (48 + n) else Char.ofNat (87 + n)

/-- Base-36 digits with structural fuel (the fuel `n` always suffices). -/
def base36Aux : Nat → Nat → List Char → List Char
  | 0, _, acc => acc
  | fuel + 1, n, acc =>
    if n = 0 then acc else base36Aux fuel (n / 36) (base36Char (n % 36) :: acc)

/-- `Math.abs(hash).toString(36)`. -/
def natToBase36 (n : Nat) : String :=
  if n = 0 then "0" else ⟨base36Aux n n []⟩

/-- `generateSourceHash` (`src/services/youtube.ts`): the 32-bit rolling
hash of the content rendered in base 36 (`charCodeAt` read as the code
point; basic-plane assumption). -/
def generateSourceHash (content : String) : String :=
  natToBase36 (content.data.foldl hashStep 0).natAbs

/-- The upsert conflict key
`UNIQUE(video_id, lang, track, fmt, source_hash)`. -/
def sameKey (r : JobRow) (videoId lang track fmt sourceHash : String) : Bool :=
  r.videoId == videoId && r.lang == lang && r.track == track && r.fmt == fmt &&
    r.sourceHash == sourceHash

/-- Parameters of `createCaptionJob`. -/
structure NewJobParams where
  id : String
  videoId : String
  lang : String
  track : String
  fmt : String
  sourceHash : String
  status : JobStatus
  bilingualJson : Option String
deriving DecidableEq, Repr

/-- `params.bilingualJson || null` (the empty string becomes `NULL`). -/
def orNullStr (o : Option String) : Option String :=
  match o with
  | some s => if s = "" then none else some s
  | none => none

/-- `createCaptionJob` (`src/services/cache.ts`): insert a fresh row, or
`ON CONFLICT` with the unique key update only `status`, `bilingual_json`
and `updated_at` of the existing row. -/
def createCaptionJob (st : AppState) (p : NewJobParams) (now ttlMs : Nat) : AppState :=
  if st.jobs.any (fun r => sameKey r p.videoId p.lang p.track p.fmt p.sourceHash) then
    { st with jobs := st.jobs.map (fun r =>
        if sameKey r p.videoId p.lang p.track p.fmt p.sourceHash then
          { r with status := p.status, bilingualJson := orNullStr p.bilingualJson, updatedAt := now }
        else r) }
  else
    let newRow : JobRow :=
      ⟨p.id, p.videoId, p.lang, p.track, p.fmt, p.sourceHash, p.status, 0, none, none,
        none, orNullStr p.bilingualJson, now, now, now + ttlMs⟩
    { st with jobs := st.jobs ++ [newRow] }

/-- `updateCaptionJobStatus` (`src/services/cache.ts`): with an error,
set `status`, `updated_at` and the error fields; without, set `status`,
`bilingual_json` (`NULL` when absent) and clear the error fields. -/
def updateCaptionJobStatus (st : AppState) (jobId : String) (status : JobStatus)
    (bilingualJson : Option String) (error : Option (String × String)) (now : Nat) :
    AppState :=
  { st with jobs := st.jobs.map (fun r =>
      if r.id == jobId then
        match error with
        | some (code, msg) =>
          { r with status := status, updatedAt := now, errorCode := some code, errorMessage := some msg }
        | none =>
          { r with status := status, bilingualJson := orNullStr bilingualJson, updatedAt := now, errorCode := none, errorMessage := none }
      else r) }

/-- `getCaptionJob`: row lookup by id. -/
def getCaptionJob (st : AppState) (jobId : String) : Option JobRow :=
  st.jobs.find? (fun r => r.id == jobId)

/-- `incrementJobRetry` (`src/services/cache.ts`): when the row exists,
`retryCount := retryCount + 1` and
`nextRetryAt := now + retryBaseMs · 2^(retryCount − 1)` — the exponent is
the retry count **before** the increment.  `status` is not touched. -/
def incrementJobRetry (st : AppState) (jobId : String) (retryBaseMs now : Nat) : AppState :=
  match getCaptionJob st jobId with
  | none => st
  | some job =>
    let rc := job.retryCount + 1
    let delayMs := retryBaseMs * 2 ^ (rc - 1)
    { st with jobs := st.jobs.map (fun r =>
        if r.id == jobId then
          { r with retryCount := rc, nextRetryAt := some (now + delayMs), updatedAt := now }
        else r) }

/-- The row filter of `getPendingJobs`
(`status IN ('pending','failed') AND retry_count < ? AND
(next_retry_at IS NULL OR next_retry_at <= ?)`). -/
def pendingJobPred (maxRetries now : Nat) (r : JobRow) : Bool :=
  (r.status == .pending || r.status == .failed) &&
    r.retryCount < maxRetries &&
    (match r.nextRetryAt with
     | none => true
     | some t => t ≤ now)

/-- The row filter of the store-layer cache query: `video_id` and `lang`
equal the given (possibly undefined) strings and `status = 'done'`. -/
def rowMatches (videoId lang : Option String) (r : JobRow) : Bool :=
  some r.videoId == videoId && some r.lang == lang && r.status == JobStatus.done

/-- `SELECT … ORDER BY created_at DESC LIMIT 1` over the matching rows
(ties resolved by scan order). -/
def selectMostRecentDone (jobs : List JobRow) (videoId lang : Option String) :
    Option JobRow :=
  jobs.foldl (fun best r =>
    if rowMatches videoId lang r then
      match best with
      | none => some r
      | some b => if b.createdAt < r.createdAt then some r else some b
    else best) none

/-- The SQLite branch of `getBilingualSubtitle`: split the key on `|`,
keep only the first two components, select the most recent `done` row for
them; with truthy `bilingual_json` promote it into the LRU and count a
hit, otherwise count a miss. -/
def storeLookup (st : AppState) (cacheKey : String) : Option String × AppState :=
  match selectMostRecentDone st.jobs (keyPart cacheKey 0) (keyPart cacheKey 1) with
  | some row =>
    match row.bilingualJson with
    | some b =>
      if b = "" then (none, { st with cacheMisses := st.cacheMisses + 1 })
      else (some b, { st with lru := (cacheKey, b) :: st.lru, cacheHits := st.cacheHits + 1 })
    | none => (none, { st with cacheMisses := st.cacheMisses + 1 })
  | none => (none, { st with cacheMisses := st.cacheMisses + 1 })

/-- `getBilingualSubtitle` (`src/services/cache.ts`): the LRU first (a
truthy value is a hit), then the store layer. -/
def getBilingualSubtitle (st : AppState) (cacheKey : String) : Option String × AppState :=
  match st.lru.lookup cacheKey with
  | some v =>
    if v = "" then storeLookup st cacheKey
    else (some v, { st with cacheHits := st.cacheHits + 1 })
  | none => storeLookup st cacheKey

/-- `setBilingualSubtitle`: writes the memory layer only. -/
def setBilingualSubtitle (st : AppState) (cacheKey content : String) : AppState :=
  { st with lru := (cacheKey, content) :: st.lru }

/-- `enqueueTranslation` (`src/queue/queue.ts`): push the task onto the
in-process queue and upsert a `pending` job row — with **no** check of an
existing active job or of an in-flight set. -/
def enqueueTranslation (st : AppState) (params : SubtitleRequest)
    (originalJson sourceHash taskId : String) (now ttlMs : Nat) : AppState :=
  let st1 := { st with taskQueue :=
    st.taskQueue ++ [⟨taskId, params, originalJson, sourceHash, now⟩] }
  createCaptionJob st1
    { id := taskId, videoId := params.v, lang := params.lang,
      track := orDefault params.kind "asr", fmt := orDefault params.fmt "json3",
      sourceHash := sourceHash, status := .pending, bilingualJson := none } now ttlMs

/-- `processTask` (`src/queue/queue.ts`): mark `translating`; on pipeline
success store the rendered WebVTT in the memory cache and mark `done`
with it; on failure mark `failed` with `translation_error` and call
`incrementJobRetry`.  The parse → merge → optimize → translate → render
pipeline's outcome enters as `outcome`. -/
def processTask (st : AppState) (task : TranslationTask) (outcome : Except String String)
    (retryBaseMs now : Nat) : AppState :=
  let st1 := updateCaptionJobStatus st task.id .translating none none now
  match outcome with
  | .ok webvtt =>
    let st2 := setBilingualSubtitle st1 (generateCacheKey task.params) webvtt
    updateCaptionJobStatus st2 task.id .done (some webvtt) none now
  | .error msg =>
    let st2 := updateCaptionJobStatus st1 task.id .failed none
      (some ("translation_error", msg)) now
    incrementJobRetry st2 task.id retryBaseMs now

/-- Drain a task list through `processTask` (the `processQueue` ticks,
with the `Promise.allSettled` parallelism as the event loop's sequential
interleaving); the second component counts the processed tasks — each one
runs the translation pipeline (`translateToBilingual`) exactly once. -/
def drainTasks : List TranslationTask → AppState → List (Except String String) → Nat →
    Nat → AppState × Nat
  | [], st, _, _, _ => (st, 0)
  | t :: rest, st, outcomes, retryBaseMs, now =>
    let st1 := processTask st t (outcomes.headD (.error "no outcome")) retryBaseMs now
    let r := drainTasks rest st1 outcomes.tail retryBaseMs now
    (r.1, r.2 + 1)

/-- Drain the state's whole queue. -/
def drainQueue (st : AppState) (outcomes : List (Except String String))
    (retryBaseMs now : Nat) : AppState × Nat :=
  drainTasks st.taskQueue { st with taskQueue := [] } outcomes retryBaseMs now

/-- A reply of the subtitle endpoint (status, body, and the two
translation headers). -/
inductive ResponseBody where
  | errorJson (error message : String)
  | content (body : String)
deriving DecidableEq, Repr

structure HttpResponse where
  status : Nat
  body : ResponseBody
  xTranslationStatus : Option String
  xCacheStatus : Option String
deriving DecidableEq, Repr

/-- Raw query parameters of `GET /api/subtitle`. -/
structure QueryParams where
  v : Option String
  lang : Option String
  tlang : Option String
  kind : Option String
  fmt : Option String
  originalUrl : Option String
deriving DecidableEq, Repr

/-- Character class of the video-id regex `[a-zA-Z0-9_-]`. -/
def isVideoIdChar (c : Char) : Bool :=
  c.isAlpha || c.isDigit || c = '_' || c = '-'

/-- The `^[a-zA-Z0-9_-]{11}$` validation. -/
def isValidVideoId (s : String) : Bool :=
  s.length = 11 && s.data.all isVideoIdChar

/-- The `params` record the route handler builds from the query (defaults
`zh-CN` / `asr` / `json3`). -/
def requestParams (q : QueryParams) : SubtitleRequest :=
  { v := orDefault q.v "", lang := orDefault q.lang "",
    tlang := some (orDefault q.tlang "zh-CN"), kind := some (orDefault q.kind "asr"),
    fmt := some (orDefault q.fmt "json3"), originalUrl := q.originalUrl }

/-- `GET /api/subtitle` (the elaborated draft in `src/http/routes.ts`):
validate, consult the cache, on miss fetch upstream (the fetch outcome
enters as `fetchResult`, whose payload stands for
`JSON.stringify(originalJson)`), hash the payload, enqueue the
translation, and reply with the original.  `taskId` is the generated
UUID, `ttlMs` the configured TTL. -/
def handleSubtitle (st : AppState) (q : QueryParams) (fetchResult : Except String String)
    (taskId : String) (now ttlMs : Nat) : HttpResponse × AppState :=
  let params := requestParams q
  if isValidVideoId params.v = false then
    (⟨400, .errorJson "invalid_video_id" "Invalid or missing video ID", none, none⟩, st)
  else if params.lang = "" ∨ params.lang.length > 10 then
    (⟨400, .errorJson "invalid_language" "Invalid or missing language code", none, none⟩, st)
  else
    let cacheKey := generateCacheKey params
    match getBilingualSubtitle st cacheKey with
    | (some cached, st1) =>
      (⟨200, .content cached, some "completed", some "HIT"⟩, st1)
    | (none, st1) =>
      match fetchResult with
      | .error e => (⟨503, .errorJson "youtube_api_error" e, none, none⟩, st1)
      | .ok payload =>
        let sourceHash := generateSourceHash payload
        let st2 := enqueueTranslation st1 params payload sourceHash taskId now ttlMs
        if orDefault q.fmt "json3" = "vtt" then
          (⟨200, .content "WEBVTT\n\n[Original subtitle - translation in progress]",
            some "pending", some "MISS"⟩, st2)
        else
          (⟨200, .content payload, some "pending", some "MISS"⟩, st2)

/-- Issue the same request once per task id — the sequential model of `N`
concurrent identical requests interleaved on the single-threaded event
loop with no worker tick in between. -/
def iterateRequests (st : AppState) (q : QueryParams) (fetchResult : Except String String)
    (now ttlMs : Nat) : List String → AppState
  | [] => st
  | taskId :: rest =>
    iterateRequests (handleSubtitle st q fetchResult taskId now ttlMs).2 q fetchResult
      now ttlMs rest

/-- Number of job rows carrying a given upsert conflict key. -/
def countKey (jobs : List JobRow) (videoId lang track fmt sourceHash : String) : Nat :=
  (jobs.filter (fun r => sameKey r videoId lang track fmt sourceHash)).length

/-! ## Theorems -/

/-- C9: the segmenter-fusion scenario.  On the six word-level cues with a
2-second gap before `Next`, `mergeSubtitleCues` with gap threshold 1000 ms
and no minimum duration (remaining options as in the repository's
`segment.test.ts`: `maxDurationMs = 10000`, `maxChars = maxWords = 0`)
returns exactly the two cues `I have a dream.` and `Next line`. -/
theorem mergeSubtitleCues_fusion_scenario :
    mergeSubtitleCues
      [⟨0, 500, "I"⟩, ⟨500, 1000, "have"⟩, ⟨1000, 1500, "a"⟩, ⟨1500, 2000, "dream."⟩,
        ⟨4000, 4500, "Next"⟩, ⟨4500, 5000, "line"⟩]
      ⟨0, 10000, 1000, 0, 0⟩ =
      [⟨0, 2000, "I have a dream."⟩, ⟨4000, 5000, "Next line"⟩] := by
  decide

/-! ### Decimal key strings are injective -/

lemma natDigitsAux_eq_digits : ∀ fuel n, n ≤ fuel → natDigitsAux fuel n = Nat.digits 10 n := by
  intro fuel
  induction fuel with
  | zero =>
    intro n h
    have : n = 0 := Nat.le_zero.mp h
    subst this
    simp [natDigitsAux]
  | succ f ih =>
    intro n h
    by_cases hn : n = 0
    · subst hn; simp [natDigitsAux]
    · have hpos : 0 < n := Nat.pos_of_ne_zero hn
      have hdiv : n / 10 ≤ f := by
        have : n / 10 < n := Nat.div_lt_self hpos (by norm_num)
        omega
      simp only [natDigitsAux, hn, if_false]
      rw [ih (n / 10) hdiv, Nat.digits_def' (by norm_num : 1 < 10) hpos]

lemma natDigitsLSF_eq_digits (n : Nat) : natDigitsLSF n = Nat.digits 10 n :=
  natDigitsAux_eq_digits n n le_rfl

lemma digitChar_fin_inj : ∀ a b : Fin 10, Nat.digitChar a.val = Nat.digitChar b.val → a = b := by
  decide

lemma digitChar_fin_ne_dash : ∀ a : Fin 10, Nat.digitChar a.val ≠ '-' := by
  decide

lemma natChars_ne_dash {n : Nat} : ∀ c ∈ natChars n, c ≠ '-' := by
  intro c hc
  unfold natChars at hc
  by_cases hn : n = 0
  · subst hn
    simp at hc
    subst hc
    decide
  · simp only [hn, if_false, List.mem_map, List.mem_reverse] at hc
    obtain ⟨d, hd, rfl⟩ := hc
    rw [natDigitsLSF_eq_digits] at hd
    have : d < 10 := Nat.digits_lt_base (by norm_num) hd
    exact digitChar_fin_ne_dash ⟨d, this⟩

lemma natChars_ne_nil (n : Nat) : natChars n ≠ [] := by
  unfold natChars
  by_cases hn : n = 0
  · simp [hn]
  · simp only [hn, if_false]
    intro h
    rw [List.map_eq_nil_iff, List.reverse_eq_nil_iff, natDigitsLSF_eq_digits] at h
    exact (Nat.digits_ne_nil_iff_ne_zero.mpr hn) h

lemma map_digitChar_inj :
    ∀ l1 l2 : List Nat, (∀ d ∈ l1, d < 10) → (∀ d ∈ l2, d < 10) →
      l1.map Nat.digitChar = l2.map Nat.digitChar → l1 = l2 := by
  intro l1
  induction l1 with
  | nil =>
    intro l2 _ _ h
    cases l2 with
    | nil => rfl
    | cons b t => simp at h
  | cons a t ih =>
    intro l2 h1 h2 h
    cases l2 with
    | nil => simp at h
    | cons b t2 =>
      simp only [List.map_cons, List.cons.injEq] at h
      have ha : a < 10 := h1 a (List.mem_cons_self a t)
      have hb : b < 10 := h2 b (List.mem_cons_self b t2)
      have hab : a = b := congrArg Fin.val (digitChar_fin_inj ⟨a, ha⟩ ⟨b, hb⟩ h.1)
      subst hab
      have := ih t2 (fun d hd => h1 d (List.mem_cons_of_mem a hd))
        (fun d hd => h2 d (List.mem_cons_of_mem a hd)) h.2
      rw [this]

lemma natChars_eq_singleton_zero {n : Nat} (h : natChars n = ['0']) : n = 0 := by
  by_contra hn
  unfold natChars at h
  simp only [hn, if_false] at h
  obtain ⟨l, hl⟩ : ∃ l, (natDigitsLSF n).reverse = l := ⟨_, rfl⟩
  rw [hl] at h
  have hdig : Nat.digits 10 n = [0] := by
    cases l with
    | nil => simp at h
    | cons d tl =>
      simp only [List.map_cons, List.cons.injEq, List.map_eq_nil_iff] at h
      obtain ⟨hd0, htl⟩ := h
      subst htl
      have hrev := congrArg List.reverse hl
      simp only [List.reverse_reverse] at hrev
      rw [natDigitsLSF_eq_digits] at hrev
      have hmem : d ∈ Nat.digits 10 n := by rw [hrev]; simp
      have hdlt : d < 10 := Nat.digits_lt_base (by norm_num) hmem
      have hd : d = 0 := by
        have hch : Nat.digitChar d = Nat.digitChar 0 := by rw [hd0]; decide
        exact congrArg Fin.val (digitChar_fin_inj ⟨d, hdlt⟩ ⟨0, by norm_num⟩ hch)
      subst hd
      rw [hrev]
      rfl
  have := Nat.ofDigits_digits 10 n
  rw [hdig] at this
  simp [Nat.ofDigits] at this
  exact hn this.symm

lemma natChars_inj {m n : Nat} (h : natChars m = natChars n) : m = n := by
  by_cases hm : m = 0 <;> by_cases hn : n = 0
  · omega
  · subst hm
    have hz : natChars n = ['0'] := by rw [← h]; simp [natChars]
    exact absurd (natChars_eq_singleton_zero hz) hn
  · subst hn
    have hz : natChars m = ['0'] := by rw [h]; simp [natChars]
    exact natChars_eq_singleton_zero hz
  · unfold natChars at h
    simp only [hm, hn, if_false] at h
    have hmlt : ∀ d ∈ (natDigitsLSF m).reverse, d < 10 := by
      intro d hd
      rw [List.mem_reverse, natDigitsLSF_eq_digits] at hd
      exact Nat.digits_lt_base (by norm_num) hd
    have hnlt : ∀ d ∈ (natDigitsLSF n).reverse, d < 10 := by
      intro d hd
      rw [List.mem_reverse, natDigitsLSF_eq_digits] at hd
      exact Nat.digits_lt_base (by norm_num) hd
    have := map_digitChar_inj _ _ hmlt hnlt h
    have hrev := congrArg List.reverse this
    simp only [List.reverse_reverse, natDigitsLSF_eq_digits] at hrev
    calc m = Nat.ofDigits 10 (Nat.digits 10 m) := (Nat.ofDigits_digits 10 m).symm
    _ = Nat.ofDigits 10 (Nat.digits 10 n) := by rw [hrev]
    _ = n := Nat.ofDigits_digits 10 n

lemma sep_cancel :
    ∀ (x1 x2 y1 y2 : List Char), (∀ c ∈ x1, c ≠ '-') → (∀ c ∈ x2, c ≠ '-') →
      x1 ++ '-' :: y1 = x2 ++ '-' :: y2 → x1 = x2 ∧ y1 = y2 := by
  intro x1
  induction x1 with
  | nil =>
    intro x2 y1 y2 _ h2 h
    cases x2 with
    | nil => simpa using h
    | cons c t =>
      exfalso
      simp only [List.nil_append, List.cons_append, List.cons.injEq] at h
      exact h2 c (List.mem_cons_self c t) h.1.symm
  | cons c t ih =>
    intro x2 y1 y2 h1 h2 h
    cases x2 with
    | nil =>
      exfalso
      simp only [List.nil_append, List.cons_append, List.cons.injEq] at h
      exact h1 c (List.mem_cons_self c t) h.1
    | cons c2 t2 =>
      simp only [List.cons_append, List.cons.injEq] at h
      obtain ⟨rfl, htail⟩ := h
      have := ih t2 y1 y2 (fun d hd => h1 d (List.mem_cons_of_mem _ hd))
        (fun d hd => h2 d (List.mem_cons_of_mem _ hd)) htail
      exact ⟨by rw [this.1], this.2⟩

lemma intSep_cancel {i j : Int} {y1 y2 : List Char}
    (h : intChars i ++ '-' :: y1 = intChars j ++ '-' :: y2) : i = j ∧ y1 = y2 := by
  unfold intChars at h
  by_cases hi : i < 0 <;> by_cases hj : j < 0
  · simp only [hi, hj, if_true, List.cons_append, List.cons.injEq, true_and] at h
    have := sep_cancel _ _ _ _ (natChars_ne_dash) (natChars_ne_dash) h
    have hab : i.natAbs = j.natAbs := natChars_inj this.1
    exact ⟨by omega, this.2⟩
  · exfalso
    simp only [hi, hj, if_true, if_false, List.cons_append] at h
    obtain ⟨l, hl⟩ : ∃ l, natChars j.toNat = l := ⟨_, rfl⟩
    rw [hl] at h
    cases l with
    | nil => exact natChars_ne_nil j.toNat hl
    | cons d tl =>
      simp only [List.cons_append, List.cons.injEq] at h
      exact natChars_ne_dash d (hl ▸ List.mem_cons_self d tl) h.1.symm
  · exfalso
    simp only [hi, hj, if_true, if_false, List.cons_append] at h
    obtain ⟨l, hl⟩ : ∃ l, natChars i.toNat = l := ⟨_, rfl⟩
    rw [hl] at h
    cases l with
    | nil => exact natChars_ne_nil i.toNat hl
    | cons d tl =>
      simp only [List.cons_append, List.cons.injEq] at h
      exact natChars_ne_dash d (hl ▸ List.mem_cons_self d tl) h.1
  · simp only [hi, hj, if_false] at h
    have := sep_cancel _ _ _ _ (natChars_ne_dash) (natChars_ne_dash) h
    have hab : i.toNat = j.toNat := natChars_inj this.1
    exact ⟨by omega, this.2⟩

lemma cueKey_inj {a b : SubtitleCue} (h : cueKey a = cueKey b) : a = b := by
  have hchars : cueKeyChars a = cueKeyChars b := congrArg String.data h
  unfold cueKeyChars at hchars
  have h1 := intSep_cancel hchars
  have h2 := intSep_cancel h1.2
  have htext : a.text = b.text := by
    have hd := h2.2
    cases hta : a.text with
    | mk da =>
      cases htb : b.text with
      | mk db =>
        rw [hta, htb] at hd
        simp only at hd
        rw [hd]
  cases a
  cases b
  simp_all

/-! ### `deduplicateCues` structure -/

lemma dedupGo_sublist : ∀ (xs : List SubtitleCue) (seen : List String),
    List.Sublist (dedupGo seen xs) xs := by
  intro xs
  induction xs with
  | nil => intro seen; simp [dedupGo]
  | cons c rest ih =>
    intro seen
    unfold dedupGo
    by_cases hc : cueKey c ∈ seen
    · simp only [hc, if_true]
      exact (ih seen).cons c
    · simp only [hc, if_false]
      exact (ih (cueKey c :: seen)).cons₂ c

lemma dedupGo_not_seen : ∀ (xs : List SubtitleCue) (seen : List String) (c : SubtitleCue),
    c ∈ dedupGo seen xs → cueKey c ∉ seen := by
  intro xs
  induction xs with
  | nil => intro seen c hc; simp [dedupGo] at hc
  | cons d rest ih =>
    intro seen c hc
    unfold dedupGo at hc
    by_cases hd : cueKey d ∈ seen
    · simp only [hd, if_true] at hc
      exact ih seen c hc
    · simp only [hd, if_false, List.mem_cons] at hc
      rcases hc with rfl | hc
      · exact hd
      · have := ih (cueKey d :: seen) c hc
        exact fun hmem => this (List.mem_cons_of_mem _ hmem)

lemma dedupGo_pairwise : ∀ (xs : List SubtitleCue) (seen : List String),
    (dedupGo seen xs).Pairwise (fun a b => cueKey a ≠ cueKey b) := by
  intro xs
  induction xs with
  | nil => intro seen; simp [dedupGo]
  | cons c rest ih =>
    intro seen
    unfold dedupGo
    by_cases hc : cueKey c ∈ seen
    · simp only [hc, if_true]
      exact ih seen
    · simp only [hc, if_false]
      refine List.Pairwise.cons ?_ (ih (cueKey c :: seen))
      intro b hb
      have := dedupGo_not_seen rest (cueKey c :: seen) b hb
      exact fun he => this (he ▸ List.mem_cons_self _ _)

lemma dedupGo_id : ∀ (xs : List SubtitleCue) (seen : List String),
    (∀ c ∈ xs, cueKey c ∉ seen) →
    xs.Pairwise (fun a b => cueKey a ≠ cueKey b) →
    dedupGo seen xs = xs := by
  intro xs
  induction xs with
  | nil => intro seen _ _; simp [dedupGo]
  | cons c rest ih =>
    intro seen hseen hpw
    unfold dedupGo
    have hc : cueKey c ∉ seen := hseen c (List.mem_cons_self c rest)
    simp only [hc, if_false]
    rw [List.pairwise_cons] at hpw
    refine congrArg (c :: ·) (ih (cueKey c :: seen) ?_ hpw.2)
    intro d hd
    simp only [List.mem_cons]
    push_neg
    exact ⟨fun he => hpw.1 d hd he.symm, hseen d (List.mem_cons_of_mem c hd)⟩

/-- C10: `deduplicateCues` keeps exactly the first occurrence of each
`(startTime, endTime, text)` triple: its output is a duplicate-free
sub-list of the input, it is idempotent, and a list already free of
duplicate triples is returned unchanged. -/
theorem deduplicateCues_first_occurrence_idempotent (xs : List SubtitleCue) :
    deduplicateCues (deduplicateCues xs) = deduplicateCues xs ∧
      (xs.Nodup → deduplicateCues xs = xs) ∧
      List.Sublist (deduplicateCues xs) xs ∧
      (deduplicateCues xs).Nodup := by
  refine ⟨?_, ?_, dedupGo_sublist xs [], ?_⟩
  · exact dedupGo_id _ [] (by simp) (dedupGo_pairwise xs [])
  · intro hnd
    refine dedupGo_id _ [] (by simp) ?_
    exact hnd.imp (fun hab he => hab (cueKey_inj he))
  · exact (dedupGo_pairwise xs []).imp (fun h he => h (congrArg cueKey he))

/-- Witness for C10 at concrete inputs: a duplicated triple collapses to
its first occurrence (idempotently) and a duplicate-free list is kept. -/
theorem deduplicateCues_first_occurrence_idempotent_witness :
    deduplicateCues (deduplicateCues [⟨0, 1, "a"⟩, ⟨0, 1, "a"⟩, ⟨2, 3, "b"⟩]) =
        deduplicateCues [⟨0, 1, "a"⟩, ⟨0, 1, "a"⟩, ⟨2, 3, "b"⟩] ∧
      deduplicateCues [⟨0, 1, "a"⟩, ⟨2, 3, "b"⟩] = [⟨0, 1, "a"⟩, ⟨2, 3, "b"⟩] :=
  ⟨(deduplicateCues_first_occurrence_idempotent _).1,
    (deduplicateCues_first_occurrence_idempotent _).2.1 (by decide)⟩

/-! ### Bilingual output shape (C7) -/

lemma bilingualFrom_length : ∀ (cues t : List SubtitleCue),
    (bilingualFrom cues t).length = cues.length := by
  intro cues
  induction cues with
  | nil => intro t; rfl
  | cons o rest ih => intro t; simp [bilingualFrom, ih]

lemma bilingual_assemble_get :
    ∀ (cues : List SubtitleCue) (slots : List (Option String)) (j i : Nat) (c : SubtitleCue),
      cues.get? i = some c →
      (bilingualFrom cues (assembleFrom slots j cues)).get? i =
        some ⟨c.startTime, c.endTime, c.text ++ "\n" ++ ((slotGet slots (j + i)).getD c.text)⟩ := by
  intro cues
  induction cues with
  | nil => intro slots j i c h; simp at h
  | cons o rest ih =>
    intro slots j i c h
    cases i with
    | zero =>
      simp only [List.get?] at h
      cases h
      simp [bilingualFrom, assembleFrom]
    | succ i =>
      simp only [List.get?] at h
      have := ih slots (j + 1) i c h
      simpa [bilingualFrom, assembleFrom, Nat.add_assoc, Nat.add_comm 1 i] using this

/-- C7: on the context-aware path, `translateToBilingual` emits exactly
one cue per input cue; output cue `i` keeps input cue `i`'s `startTime`
and `endTime` and carries `original.text + "\n" + t`, where `t` is the
translation placed in slot `i` of the translation slot array (the
original text when the slot is unfilled). -/
theorem translateToBilingual_shape (cues : List SubtitleCue) (slots : List (Option String)) :
    (translateToBilingual cues slots).length = cues.length ∧
      ∀ i c, cues.get? i = some c →
        (translateToBilingual cues slots).get? i =
          some ⟨c.startTime, c.endTime, c.text ++ "\n" ++ ((slotGet slots i).getD c.text)⟩ := by
  constructor
  · exact bilingualFrom_length cues (assembleContextResult cues slots)
  · intro i c h
    have := bilingual_assemble_get cues slots 0 i c h
    simpa [translateToBilingual, assembleContextResult] using this

/-- Witness for C7 at a concrete input: one cue, slot filled. -/
theorem translateToBilingual_shape_witness :
    (translateToBilingual [⟨5, 9, "hello"⟩] [some "hi"]).get? 0 = some ⟨5, 9, "hello\nhi"⟩ :=
  ((translateToBilingual_shape [⟨5, 9, "hello"⟩] [some "hi"]).2 0 ⟨5, 9, "hello"⟩
    (by decide)).trans (by decide)

/-! ### Fallback never aborts (C4) -/

lemma mem_expectedInts {start endIdx : Nat} {a : Int} :
    a ∈ expectedInts start endIdx ↔ ∃ k, start ≤ k ∧ k < endIdx ∧ a = Int.ofNat k := by
  unfold expectedInts
  simp only [List.mem_map, List.mem_range'_1]
  constructor
  · rintro ⟨k, ⟨hk1, hk2⟩, rfl⟩
    exact ⟨k, hk1, by omega, rfl⟩
  · rintro ⟨k, hk1, hk2, rfl⟩
    exact ⟨k, ⟨hk1, by omega⟩, rfl⟩

lemma slotGet_set_ne (slots : List (Option String)) (k i : Nat) (v : Option String)
    (h : k ≠ i) : slotGet (slots.set k v) i = slotGet slots i := by
  unfold slotGet
  rw [List.get?_set_ne v slots h]

lemma slotGet_set_eq (slots : List (Option String)) (k : Nat) (v : Option String)
    (h : k < slots.length) : slotGet (slots.set k v) k = v := by
  unfold slotGet
  rw [List.get?_set_eq_of_lt v h]
  rfl

lemma applyParsed_exSlots_outside {start endIdx : Nat} :
    ∀ (ps : List ParsedTranslation) (slots : List (Option String)),
      (exSlots (applyParsed (expectedInts start endIdx) slots ps)).length = slots.length ∧
      ∀ i, (i < start ∨ endIdx ≤ i) →
        slotGet (exSlots (applyParsed (expectedInts start endIdx) slots ps)) i =
          slotGet slots i := by
  intro ps
  induction ps with
  | nil =>
    intro slots
    constructor
    · unfold applyParsed
      by_cases h : (expectedInts start endIdx).all (fun i => slotTruthy (slotGet slots i.toNat))
      · simp [h, exSlots]
      · simp [h, exSlots]
    · intro i _
      unfold applyParsed
      by_cases h : (expectedInts start endIdx).all (fun i => slotTruthy (slotGet slots i.toNat))
      · simp [h, exSlots]
      · simp [h, exSlots]
  | cons p rest ih =>
    intro slots
    unfold applyParsed
    by_cases hm : p.id ∈ expectedInts start endIdx
    · simp only [hm, if_true]
      obtain ⟨k, hk1, hk2, hk3⟩ := mem_expectedInts.mp hm
      have hkn : p.id.toNat = k := by rw [hk3]; rfl
      have h1 := ih (slots.set p.id.toNat (some p.translation))
      constructor
      · rw [h1.1, List.length_set]
      · intro i hi
        rw [h1.2 i hi, slotGet_set_ne]
        omega
    · simp only [hm, if_false]
      exact ⟨rfl, fun i _ => rfl⟩

lemma attemptBatch_exSlots (parse : String → Option Json)
    (slots : List (Option String)) (start endIdx : Nat) (content : Option String) :
    (exSlots (attemptBatch parse slots start endIdx content)).length = slots.length ∧
      ∀ i, (i < start ∨ endIdx ≤ i) →
        slotGet (exSlots (attemptBatch parse slots start endIdx content)) i =
          slotGet slots i := by
  unfold attemptBatch
  cases content with
  | none => exact ⟨rfl, fun i _ => rfl⟩
  | some raw =>
    dsimp only
    split
    · exact ⟨rfl, fun i _ => rfl⟩
    · split
      · exact ⟨rfl, fun i _ => rfl⟩
      · split
        · exact ⟨rfl, fun i _ => rfl⟩
        · exact applyParsed_exSlots_outside _ slots

lemma attemptBatch_error_outside {parse : String → Option Json}
    {slots s2 : List (Option String)} {start endIdx : Nat} {content : Option String}
    {m : String} (h : attemptBatch parse slots start endIdx content = .error (m, s2)) :
    s2.length = slots.length ∧
      ∀ i, (i < start ∨ endIdx ≤ i) → slotGet s2 i = slotGet slots i := by
  have hx := attemptBatch_exSlots parse slots start endIdx content
  rw [h] at hx
  exact hx

lemma foldl_set_length (v : Nat → String) :
    ∀ (ks : List Nat) (slots : List (Option String)),
      (ks.foldl (fun s i => s.set i (some (v i))) slots).length = slots.length := by
  intro ks
  induction ks with
  | nil => intro slots; rfl
  | cons k rest ih =>
    intro slots
    simp only [List.foldl_cons]
    rw [ih, List.length_set]

lemma foldl_set_outside (v : Nat → String) :
    ∀ (ks : List Nat) (slots : List (Option String)) (i : Nat), i ∉ ks →
      slotGet (ks.foldl (fun s j => s.set j (some (v j))) slots) i = slotGet slots i := by
  intro ks
  induction ks with
  | nil => intro slots i _; rfl
  | cons k rest ih =>
    intro slots i hi
    simp only [List.mem_cons, not_or] at hi
    simp only [List.foldl_cons]
    rw [ih _ i hi.2, slotGet_set_ne _ _ _ _ (fun he => hi.1 he.symm)]

lemma foldl_set_inside (v : Nat → String) :
    ∀ (ks : List Nat) (slots : List (Option String)) (i : Nat), i ∈ ks → i < slots.length →
      slotGet (ks.foldl (fun s j => s.set j (some (v j))) slots) i = some (v i) := by
  intro ks
  induction ks with
  | nil => intro slots i hi _; simp at hi
  | cons k rest ih =>
    intro slots i hi hlen
    simp only [List.foldl_cons]
    by_cases hmem : i ∈ rest
    · exact ih _ i hmem (by rw [List.length_set]; exact hlen)
    · have hik : i = k := by
        rcases List.mem_cons.mp hi with h | h
        · exact h
        · exact absurd h hmem
      subst hik
      rw [foldl_set_outside v rest _ i hmem, slotGet_set_eq _ _ _ hlen]

lemma fallbackBatch_spec (cues : List SubtitleCue) (lineResults : Nat → Except String String)
    (start endIdx : Nat) (slots : List (Option String)) :
    (fallbackBatch cues lineResults start endIdx slots).length = slots.length ∧
      (∀ i, start ≤ i → i < endIdx → i < slots.length →
        slotGet (fallbackBatch cues lineResults start endIdx slots) i =
          some (fallbackValue cues lineResults i)) ∧
      ∀ i, (i < start ∨ endIdx ≤ i) →
        slotGet (fallbackBatch cues lineResults start endIdx slots) i = slotGet slots i := by
  refine ⟨foldl_set_length _ _ _, ?_, ?_⟩
  · intro i h1 h2 h3
    exact foldl_set_inside _ _ _ i (by rw [List.mem_range'_1]; omega) h3
  · intro i hi
    exact foldl_set_outside _ _ _ i (by rw [List.mem_range'_1]; omega)

lemma runBatch_exhausted :
    ∀ (attempts : List (Option String)) (parse : String → Option Json)
      (cues : List SubtitleCue) (lineResults : Nat → Except String String)
      (start endIdx : Nat) (slots : List (Option String)),
      attempts ≠ [] →
      (∀ (s : List (Option String)) (content : Option String), content ∈ attempts →
        ∃ m s2, attemptBatch parse s start endIdx content = .error (m, s2)) →
      (runBatch parse cues lineResults start endIdx slots attempts).length = slots.length ∧
        (∀ i, start ≤ i → i < endIdx → i < slots.length →
          slotGet (runBatch parse cues lineResults start endIdx slots attempts) i =
            some (fallbackValue cues lineResults i)) ∧
        ∀ i, (i < start ∨ endIdx ≤ i) →
          slotGet (runBatch parse cues lineResults start endIdx slots attempts) i =
            slotGet slots i := by
  intro attempts
  induction attempts with
  | nil => intro _ _ _ _ _ _ hne _; exact absurd rfl hne
  | cons a rest ih =>
    intro parse cues lineResults start endIdx slots _ hfail
    obtain ⟨m, s2, herr⟩ := hfail slots a (List.mem_cons_self a rest)
    have hout := attemptBatch_error_outside herr
    unfold runBatch
    rw [herr]
    cases rest with
    | nil =>
      have hs := fallbackBatch_spec cues lineResults start endIdx s2
      refine ⟨by rw [hs.1, hout.1], ?_, ?_⟩
      · intro i h1 h2 h3
        exact hs.2.1 i h1 h2 (by rw [hout.1]; exact h3)
      · intro i hi
        rw [hs.2.2 i hi, hout.2 i hi]
    | cons b rest2 =>
      have hr := ih parse cues lineResults start endIdx s2 (by simp)
        (fun s content hc => hfail s content (List.mem_cons_of_mem a hc))
      refine ⟨by rw [hr.1, hout.1], ?_, ?_⟩
      · intro i h1 h2 h3
        exact hr.2.1 i h1 h2 (by rw [hout.1]; exact h3)
      · intro i hi
        rw [hr.2.2 i hi, hout.2 i hi]

/-- C4: when every attempt at a context batch fails (`batchRetries + 1`
attempts), `runBatch` falls back to per-line translation for that batch
only: each batch slot receives the line's single-line translation when it
succeeds and the original cue text when it fails, slots outside the batch
are untouched, and the fallback itself is total — no error escapes
`runBatch`, so exhausted batch retries never abort the overall
translation. -/
theorem runBatch_fallback_on_exhaustion (parse : String → Option Json)
    (cues : List SubtitleCue) (lineResults : Nat → Except String String)
    (start endIdx : Nat) (slots : List (Option String)) (attempts : List (Option String))
    (hlen : slots.length = cues.length) (hend : endIdx ≤ cues.length)
    (hne : attempts ≠ [])
    (hfail : ∀ (s : List (Option String)) (content : Option String), content ∈ attempts →
      ∃ m s2, attemptBatch parse s start endIdx content = .error (m, s2)) :
    (∀ i t, start ≤ i → i < endIdx → lineResults i = .ok t →
        slotGet (runBatch parse cues lineResults start endIdx slots attempts) i = some t) ∧
      (∀ i e c, start ≤ i → i < endIdx → lineResults i = .error e → cues.get? i = some c →
        slotGet (runBatch parse cues lineResults start endIdx slots attempts) i =
          some c.text) ∧
      ∀ i, (i < start ∨ endIdx ≤ i) →
        slotGet (runBatch parse cues lineResults start endIdx slots attempts) i =
          slotGet slots i := by
  have h := runBatch_exhausted attempts parse cues lineResults start endIdx slots hne hfail
  refine ⟨?_, ?_, h.2.2⟩
  · intro i t h1 h2 hok
    rw [h.2.1 i h1 h2 (by omega)]
    unfold fallbackValue
    rw [hok]
  · intro i e c h1 h2 herr hc
    rw [h.2.1 i h1 h2 (by omega)]
    unfold fallbackValue
    rw [herr, hc]
    rfl

/-- Witness for C4: two cues, one batch, a single always-failing attempt
(empty response); line 0's single-line call succeeds, line 1's fails and
keeps the original text. -/
theorem runBatch_fallback_on_exhaustion_witness :
    slotGet (runBatch (fun _ => none) [⟨0, 1, "orig0"⟩, ⟨1, 2, "orig1"⟩]
        (fun i => if i = 0 then .ok "T0" else .error "boom") 0 2 [none, none] [none]) 0 =
        some "T0" ∧
      slotGet (runBatch (fun _ => none) [⟨0, 1, "orig0"⟩, ⟨1, 2, "orig1"⟩]
        (fun i => if i = 0 then .ok "T0" else .error "boom") 0 2 [none, none] [none]) 1 =
        some "orig1" := by
  have h := runBatch_fallback_on_exhaustion (fun _ => none) [⟨0, 1, "orig0"⟩, ⟨1, 2, "orig1"⟩]
    (fun i => if i = 0 then .ok "T0" else .error "boom") 0 2 [none, none] [none]
    (by decide) (by decide) (by decide)
    (fun s content hc => by
      have : content = none := by
        rcases List.mem_cons.mp hc with h | h
        · exact h
        · simp at h
      subst this
      exact ⟨"Empty translation response from OpenAI", s, rfl⟩)
  exact ⟨h.1 0 "T0" (by decide) (by decide) rfl,
    h.2.1 1 "boom" ⟨1, 2, "orig1"⟩ (by decide) (by decide) rfl (by decide)⟩

/-! ### Batch response validation (C5) -/

lemma parseItem_translation_ne {it : Json} {p : ParsedTranslation}
    (h : parseItem it = .ok p) : p.translation ≠ "" := by
  unfold parseItem at h
  cases it <;> try simp at h
  case arr elems =>
    split at h
    · simp at h
    case _ q =>
      split at h
      · split at h
        · split at h
          · simp at h
          case _ s _ =>
            rw [Except.ok.injEq] at h
            subst h
            simp_all
        · simp at h
      · simp at h
  case obj fields =>
    split at h
    · simp at h
    case _ q =>
      split at h
      · split at h
        · split at h
          · simp at h
          case _ s _ =>
            rw [Except.ok.injEq] at h
            subst h
            simp_all
        · simp at h
      · simp at h

lemma applyParsed_eq_of_mem {E : List Int} :
    ∀ (ps : List ParsedTranslation) (slots : List (Option String)),
      (∀ p ∈ ps, p.id ∈ E) →
      applyParsed E slots ps =
        if E.all (fun i => slotTruthy (slotGet (writeAll ps slots) i.toNat)) then
          .ok (writeAll ps slots)
        else .error ("Missing translation for id in batch", writeAll ps slots) := by
  intro ps
  induction ps with
  | nil => intro slots _; rfl
  | cons p rest ih =>
    intro slots hmem
    have hp : p.id ∈ E := hmem p (List.mem_cons_self p rest)
    unfold applyParsed
    simp only [hp, if_true]
    exact ih (slots.set p.id.toNat (some p.translation))
      (fun q hq => hmem q (List.mem_cons_of_mem p hq))

lemma applyParsed_ok_mem {E : List Int} :
    ∀ (ps : List ParsedTranslation) (slots s : List (Option String)),
      applyParsed E slots ps = .ok s → ∀ p ∈ ps, p.id ∈ E := by
  intro ps
  induction ps with
  | nil => intro slots s _ p hp; simp at hp
  | cons q rest ih =>
    intro slots s h p hp
    unfold applyParsed at h
    by_cases hq : q.id ∈ E
    · simp only [hq, if_true] at h
      rcases List.mem_cons.mp hp with rfl | hp2
      · exact hq
      · exact ih _ s h p hp2
    · simp only [hq, if_false] at h
      simp at h

lemma slotTruthy_writeAll :
    ∀ (ps : List ParsedTranslation) (slots : List (Option String)) (k : Nat),
      (∀ p ∈ ps, p.id.toNat < slots.length) →
      (∀ p ∈ ps, p.translation ≠ "") →
      (slotTruthy (slotGet (writeAll ps slots) k) = true ↔
        (∃ p ∈ ps, p.id.toNat = k) ∨ slotTruthy (slotGet slots k) = true) := by
  intro ps
  induction ps with
  | nil => intro slots k _ _; simp [writeAll]
  | cons p rest ih =>
    intro slots k hlt htr
    have hwa : writeAll (p :: rest) slots =
        writeAll rest (slots.set p.id.toNat (some p.translation)) := rfl
    rw [hwa, ih _ k
      (fun q hq => by rw [List.length_set]; exact hlt q (List.mem_cons_of_mem p hq))
      (fun q hq => htr q (List.mem_cons_of_mem p hq))]
    by_cases hk : p.id.toNat = k
    · subst hk
      rw [slotGet_set_eq _ _ _ (hlt p (List.mem_cons_self p rest))]
      have : slotTruthy (some p.translation) = true := by
        simp [slotTruthy, htr p (List.mem_cons_self p rest)]
      simp [this]
    · rw [slotGet_set_ne _ _ _ _ hk]
      constructor
      · rintro (⟨q, hq1, hq2⟩ | h)
        · exact Or.inl ⟨q, List.mem_cons_of_mem p hq1, hq2⟩
        · exact Or.inr h
      · rintro (⟨q, hq1, hq2⟩ | h)
        · rcases List.mem_cons.mp hq1 with rfl | hq3
          · exact absurd hq2 hk
          · exact Or.inl ⟨q, hq3, hq2⟩
        · exact Or.inr h

lemma applyParsed_ok_iff {start endIdx : Nat} {slots : List (Option String)}
    {ps : List ParsedTranslation}
    (hempty : ∀ i, start ≤ i → i < endIdx → slotGet slots i = none)
    (hlen : endIdx ≤ slots.length)
    (htr : ∀ p ∈ ps, p.translation ≠ "") :
    (∃ s, applyParsed (expectedInts start endIdx) slots ps = .ok s) ↔
      ((∀ p ∈ ps, p.id ∈ expectedInts start endIdx) ∧
        ∀ k, start ≤ k → k < endIdx → ∃ p ∈ ps, p.id = Int.ofNat k) := by
  constructor
  · rintro ⟨s, hs⟩
    have hmem := applyParsed_ok_mem ps slots s hs
    refine ⟨hmem, ?_⟩
    intro k hk1 hk2
    rw [applyParsed_eq_of_mem ps slots hmem] at hs
    have hlt : ∀ p ∈ ps, p.id.toNat < slots.length := by
      intro p hp
      obtain ⟨m, hm1, hm2, hm3⟩ := mem_expectedInts.mp (hmem p hp)
      have : p.id.toNat = m := by rw [hm3]; rfl
      omega
    by_cases hall : (expectedInts start endIdx).all
        (fun i => slotTruthy (slotGet (writeAll ps slots) i.toNat))
    · have hk : (Int.ofNat k) ∈ expectedInts start endIdx :=
        mem_expectedInts.mpr ⟨k, hk1, hk2, rfl⟩
      have := (List.all_eq_true.mp hall) (Int.ofNat k) hk
      have hkt : (Int.ofNat k).toNat = k := rfl
      rw [hkt] at this
      rcases (slotTruthy_writeAll ps slots k hlt htr).mp this with ⟨p, hp1, hp2⟩ | hfalse
      · refine ⟨p, hp1, ?_⟩
        obtain ⟨m, hm1, hm2, hm3⟩ := mem_expectedInts.mp (hmem p hp1)
        have : p.id.toNat = m := by rw [hm3]; rfl
        rw [hm3]
        congr 1
        omega
      · rw [hempty k hk1 hk2] at hfalse
        simp [slotTruthy] at hfalse
    · rw [if_neg hall] at hs
      simp at hs
  · rintro ⟨hmem, hcover⟩
    rw [applyParsed_eq_of_mem ps slots hmem]
    have hlt : ∀ p ∈ ps, p.id.toNat < slots.length := by
      intro p hp
      obtain ⟨m, hm1, hm2, hm3⟩ := mem_expectedInts.mp (hmem p hp)
      have : p.id.toNat = m := by rw [hm3]; rfl
      omega
    have hall : (expectedInts start endIdx).all
        (fun i => slotTruthy (slotGet (writeAll ps slots) i.toNat)) := by
      rw [List.all_eq_true]
      intro e he
      obtain ⟨m, hm1, hm2, hm3⟩ := mem_expectedInts.mp he
      obtain ⟨p, hp1, hp2⟩ := hcover m hm1 hm2
      have hkt : e.toNat = m := by rw [hm3]; rfl
      rw [hkt]
      refine (slotTruthy_writeAll ps slots m hlt htr).mpr (Or.inl ⟨p, hp1, ?_⟩)
      rw [hp2]
      rfl
    rw [if_pos hall]
    exact ⟨_, rfl⟩

lemma mapM_parseItem_ok_iff :
    ∀ (items : List Json) (ps : List ParsedTranslation),
      items.mapM parseItem = .ok ps ↔
        List.Forall₂ (fun it p => parseItem it = .ok p) items ps := by
  intro items
  induction items with
  | nil =>
    intro ps
    constructor
    · intro h
      simp only [List.mapM_nil] at h
      cases h
      exact List.Forall₂.nil
    · intro h
      cases h
      rfl
  | cons a rest ih =>
    intro ps
    rw [List.mapM_cons]
    constructor
    · intro h
      cases ha : parseItem a with
      | error e => rw [ha] at h; simp [Bind.bind, Except.bind] at h
      | ok b =>
        rw [ha] at h
        cases hr : rest.mapM parseItem with
        | error e =>
          rw [hr] at h
          simp [Bind.bind, Except.bind, Pure.pure, Except.pure] at h
        | ok bs =>
          rw [hr] at h
          simp only [Bind.bind, Except.bind, Pure.pure, Except.pure, Except.ok.injEq] at h
          subst h
          exact List.Forall₂.cons ha ((ih bs).mp hr)
    · intro h
      cases h with
      | cons hab hrest =>
        rw [hab, (ih _).mpr hrest]
        rfl

lemma forall₂_mem_left {R : Json → ParsedTranslation → Prop}
    {l1 : List Json} {l2 : List ParsedTranslation} (h : List.Forall₂ R l1 l2) :
    ∀ a ∈ l1, ∃ b ∈ l2, R a b := by
  induction h with
  | nil => intro a ha; simp at ha
  | cons hr _ ih =>
    intro a ha
    rcases List.mem_cons.mp ha with rfl | ha2
    · exact ⟨_, List.mem_cons_self _ _, hr⟩
    · obtain ⟨b, hb1, hb2⟩ := ih a ha2
      exact ⟨b, List.mem_cons_of_mem _ hb1, hb2⟩

lemma forall₂_mem_right {R : Json → ParsedTranslation → Prop}
    {l1 : List Json} {l2 : List ParsedTranslation} (h : List.Forall₂ R l1 l2) :
    ∀ b ∈ l2, ∃ a ∈ l1, R a b := by
  induction h with
  | nil => intro b hb; simp at hb
  | cons hr _ ih =>
    intro b hb
    rcases List.mem_cons.mp hb with rfl | hb2
    · exact ⟨_, List.mem_cons_self _ _, hr⟩
    · obtain ⟨a, ha1, ha2⟩ := ih b hb2
      exact ⟨a, List.mem_cons_of_mem _ ha1, ha2⟩

lemma mapM_parseItem_ok_of_forall :
    ∀ (items : List Json), (∀ it ∈ items, ∃ p, parseItem it = .ok p) →
      ∃ ps, items.mapM parseItem = .ok ps := by
  intro items
  induction items with
  | nil => intro _; exact ⟨[], rfl⟩
  | cons a rest ih =>
    intro h
    obtain ⟨p, hp⟩ := h a (List.mem_cons_self a rest)
    obtain ⟨ps, hps⟩ := ih (fun it hit => h it (List.mem_cons_of_mem a hit))
    refine ⟨p :: ps, ?_⟩
    rw [List.mapM_cons, hp, hps]
    rfl

/-- C5 (amended): acceptance of a batch response.  With the batch's slots
initially unfilled, an attempt succeeds **iff** the fence-stripped,
bracket-sliced text parses as a JSON array whose length equals the batch
length, every item passes the item validator (an id that is an integer
after JavaScript `Number` coercion — so string-form ids are also accepted
— and a translation that is a non-empty-after-trim string under one of the
keys `translation`/`translated_text`/`text`/`initial_translation`) with
its id among the batch's absolute indices, and every batch index is
carried by some item.  Any deviation throws and fails the attempt. -/
theorem attemptBatch_accepts_iff (parse : String → Option Json) (text : String)
    (slots : List (Option String)) (start endIdx : Nat)
    (hempty : ∀ i, start ≤ i → i < endIdx → slotGet slots i = none)
    (hlen : endIdx ≤ slots.length) :
    (∃ s, attemptBatch parse slots start endIdx (some text) = .ok s) ↔
      ∃ items : List Json,
        extractJsonArray parse (jsTrim text) = .ok (Json.arr items) ∧
        items.length = endIdx - start ∧
        (∀ it ∈ items, ∃ p, parseItem it = .ok p ∧ p.id ∈ expectedInts start endIdx) ∧
        ∀ k, start ≤ k → k < endIdx →
          ∃ it ∈ items, ∃ p, parseItem it = .ok p ∧ p.id = Int.ofNat k := by
  unfold attemptBatch
  by_cases ht : jsTrim text = ""
  · simp only [ht, if_true]
    constructor
    · rintro ⟨s, hs⟩; simp at hs
    · rintro ⟨items, hx, _⟩
      have hev : extractJsonArray parse "" =
          .error "No JSON array found in translation response" := rfl
      rw [hev] at hx
      simp at hx
  · simp only [ht, if_false]
    cases hx : extractJsonArray parse (jsTrim text) with
    | error e =>
      dsimp only
      constructor
      · rintro ⟨s, hs⟩; simp at hs
      · rintro ⟨items, hx2, _⟩
        simp at hx2
    | ok j =>
      dsimp only
      cases j with
      | arr items =>
        by_cases hcount : items.length = endIdx - start
        · have hp : parseTranslationBatchJ (Json.arr items) (endIdx - start) =
              items.mapM parseItem := by
            unfold parseTranslationBatchJ
            simp [hcount]
          rw [hp]
          cases hm : items.mapM parseItem with
          | error e =>
            dsimp only
            constructor
            · rintro ⟨s, hs⟩; simp at hs
            · rintro ⟨items2, hx2, _, hforall, _⟩
              rw [Except.ok.injEq, Json.arr.injEq] at hx2
              subst hx2
              obtain ⟨ps, hps⟩ := mapM_parseItem_ok_of_forall items
                (fun it hit => (hforall it hit).imp (fun p hp => hp.1))
              rw [hm] at hps
              simp at hps
          | ok ps =>
            dsimp only
            have hf2 := (mapM_parseItem_ok_iff items ps).mp hm
            have htr : ∀ p ∈ ps, p.translation ≠ "" := by
              intro p hp
              obtain ⟨it, _, hit2⟩ := forall₂_mem_right hf2 p hp
              exact parseItem_translation_ne hit2
            rw [applyParsed_ok_iff hempty hlen htr]
            constructor
            · rintro ⟨hmem, hcover⟩
              refine ⟨items, rfl, hcount, ?_, ?_⟩
              · intro it hit
                obtain ⟨p, hp1, hp2⟩ := forall₂_mem_left hf2 it hit
                exact ⟨p, hp2, hmem p hp1⟩
              · intro k hk1 hk2
                obtain ⟨p, hp1, hp2⟩ := hcover k hk1 hk2
                obtain ⟨it, hit1, hit2⟩ := forall₂_mem_right hf2 p hp1
                exact ⟨it, hit1, p, hit2, hp2⟩
            · rintro ⟨items2, hx2, _, hforall, hcover⟩
              rw [Except.ok.injEq, Json.arr.injEq] at hx2
              subst hx2
              constructor
              · intro p hp
                obtain ⟨it, hit1, hit2⟩ := forall₂_mem_right hf2 p hp
                obtain ⟨p2, hp21, hp22⟩ := hforall it hit1
                rw [hit2, Except.ok.injEq] at hp21
                exact hp21 ▸ hp22
              · intro k hk1 hk2
                obtain ⟨it, hit1, p2, hp21, hp22⟩ := hcover k hk1 hk2
                obtain ⟨p, hp1, hp2⟩ := forall₂_mem_left hf2 it hit1
                rw [hp2, Except.ok.injEq] at hp21
                exact ⟨p, hp1, hp21 ▸ hp22⟩
        · have hp : parseTranslationBatchJ (Json.arr items) (endIdx - start) =
              .error "Translation response count mismatch" := by
            unfold parseTranslationBatchJ
            simp [hcount]
          rw [hp]
          dsimp only
          constructor
          · rintro ⟨s, hs⟩; simp at hs
          · rintro ⟨items2, hx2, hcount2, _⟩
            rw [Except.ok.injEq, Json.arr.injEq] at hx2
            subst hx2
            exact absurd hcount2 hcount
      | null =>
        constructor
        · rintro ⟨s, hs⟩; simp [parseTranslationBatchJ] at hs
        · rintro ⟨items2, hx2, _⟩
          simp at hx2
      | bool b =>
        constructor
        · rintro ⟨s, hs⟩; simp [parseTranslationBatchJ] at hs
        · rintro ⟨items2, hx2, _⟩
          simp at hx2
      | num v =>
        constructor
        · rintro ⟨s, hs⟩; simp [parseTranslationBatchJ] at hs
        · rintro ⟨items2, hx2, _⟩
          simp at hx2
      | str s2 =>
        constructor
        · rintro ⟨s, hs⟩; simp [parseTranslationBatchJ] at hs
        · rintro ⟨items2, hx2, _⟩
          simp at hx2
      | obj fields =>
        constructor
        · rintro ⟨s, hs⟩; simp [parseTranslationBatchJ] at hs
        · rintro ⟨items2, hx2, _⟩
          simp at hx2

/-- Witness for C5's amended theorem: a well-formed single-item response
for the one-cue batch `[0, 1)` is accepted. -/
theorem attemptBatch_accepts_iff_witness :
    ∃ s, attemptBatch
        (fun t => if t = "[RESP]" then
          some (Json.arr [Json.obj [("id", Json.num (mkRat 0 1)), ("translation", Json.str "好")]])
          else none)
        [none] 0 1 (some "[RESP]") = .ok s :=
  (attemptBatch_accepts_iff
      (fun t => if t = "[RESP]" then
        some (Json.arr [Json.obj [("id", Json.num (mkRat 0 1)), ("translation", Json.str "好")]])
        else none)
      "[RESP]" [none] 0 1
      (fun i _ h2 => by
        have h0 : i = 0 := by omega
        subst h0
        rfl)
      (by decide)).mpr
    ⟨[Json.obj [("id", Json.num (mkRat 0 1)), ("translation", Json.str "好")]],
      rfl, by decide,
      fun it hit => by
        rw [List.mem_singleton] at hit
        subst hit
        exact ⟨⟨0, "好"⟩, by decide, by decide⟩,
      fun k hk1 hk2 => by
        have h0 : k = 0 := by omega
        subst h0
        exact ⟨Json.obj [("id", Json.num (mkRat 0 1)), ("translation", Json.str "好")],
          List.mem_singleton.mpr rfl, ⟨0, "好"⟩, by decide, by decide⟩⟩

/-- C5 counterexample: the claim's `every item carries an integer id` is
not what the code enforces.  A response whose sole item carries the
**string** `"0"` as its id (`getField … "id" = some (Json.str "0")`, not a
JSON integer) is nevertheless accepted — `Number("0")` coerces it — so
the claim's acceptance condition, read as stated, is refuted. -/
theorem attemptBatch_string_id_accepted :
    attemptBatch
        (fun t => if t = "[RESP]" then
          some (Json.arr [Json.obj [("id", Json.str "0"), ("translation", Json.str "hola")]])
          else none)
        [none] 0 1 (some "[RESP]") = .ok [some "hola"] ∧
      getField (Json.obj [("id", Json.str "0"), ("translation", Json.str "hola")]) "id" =
        some (Json.str "0") :=
  ⟨by decide, rfl⟩

/-! ### Segmenter duration law (C6) -/

/-- C6 counterexample: with the default parameters (3000/7000/1200), the
input `[(0,10000,"a"), (10000,15000,"b.")]` makes `mergeSubtitleCues` emit
a **first** segment of duration 10000 ms — above `maxDurationMs = 7000` —
that is neither the tail segment nor folded into a predecessor, refuting
`minDurationMs ≤ end − start ≤ maxDurationMs` for every non-tail segment. -/
theorem mergeSubtitleCues_duration_counterexample :
    mergeSubtitleCues [⟨0, 10000, "a"⟩, ⟨10000, 15000, "b."⟩] ⟨3000, 7000, 1200, 0, 0⟩ =
        [⟨0, 10000, "a"⟩, ⟨10000, 15000, "b."⟩] ∧
      ¬ ((10000 : Int) - 0 ≤ 7000) := by
  decide

/-- C6 (amended): the break behaviour of the merge loop.  A hard break
(`durationIfIncluded ≥ maxDurationMs` or `gap > gapThresholdMs`) closes
and emits the open paragraph and starts a new one with the incoming cue,
exactly as claimed; and every segment emitted by a **soft** break does
satisfy `minDurationMs ≤ end − start < maxDurationMs`.  (The claim's
global bounds fail: segments closed by a hard break or at end of input
can be shorter than `minDurationMs`, and a paragraph formed from a single
overlong cue exceeds `maxDurationMs`, as the counterexample shows.) -/
theorem mergeStep_break_behaviour (opts : MergeOpts) (acc : List SubtitleCue)
    (g : OpenGroup) (cue : SubtitleCue) (hne : jsTrim cue.text ≠ "") :
    (hardBreakCond opts g cue →
        mergeStep opts (acc, some g) cue =
          (acc ++ [closeGroup g], some (newGroup cue (jsTrim cue.text)))) ∧
      (¬ hardBreakCond opts g cue → softBreakCond opts g cue (jsTrim cue.text) →
        ∃ seg, mergeStep opts (acc, some g) cue = (acc ++ [seg], none) ∧
          opts.minDurationMs ≤ seg.endTime - seg.startTime ∧
          seg.endTime - seg.startTime < opts.maxDurationMs) := by
  constructor
  · intro hhard
    unfold mergeStep
    simp only [hne, if_false, hhard, if_true]
  · intro hhard hsoft
    unfold mergeStep
    simp only [hne, if_false, hhard, if_true, hsoft]
    refine ⟨closeGroup ⟨g.startTime, cue.endTime, g.pieces ++ [jsTrim cue.text],
      g.chars + (jsTrim cue.text).length + 1, g.words + countWords (jsTrim cue.text),
      cue.endTime⟩, ?_, ?_, ?_⟩
    · simp
    · exact hsoft.1
    · unfold hardBreakCond at hhard
      push_neg at hhard
      have := hhard.1
      simp only [closeGroup]
      omega

/-- Witness for C6's amended theorem: a hard break at a 7500 ms gap, and
a soft break at sentence-ending punctuation whose emitted segment obeys
the duration bounds. -/
theorem mergeStep_break_behaviour_witness :
    (mergeStep ⟨3000, 7000, 1200, 0, 0⟩ ([], some ⟨0, 500, ["a"], 1, 1, 500⟩) ⟨8000, 8400, "b"⟩ =
        ([closeGroup ⟨0, 500, ["a"], 1, 1, 500⟩], some (newGroup ⟨8000, 8400, "b"⟩ "b"))) ∧
      ∃ seg, mergeStep ⟨0, 7000, 1200, 0, 0⟩ ([], some ⟨0, 500, ["a"], 1, 1, 500⟩)
          ⟨600, 1000, "b."⟩ = ([seg], none) ∧
        (0 : Int) ≤ seg.endTime - seg.startTime ∧ seg.endTime - seg.startTime < 7000 := by
  constructor
  · have h := (mergeStep_break_behaviour ⟨3000, 7000, 1200, 0, 0⟩ []
      ⟨0, 500, ["a"], 1, 1, 500⟩ ⟨8000, 8400, "b"⟩ (by decide)).1 (by decide)
    simpa using h
  · have h := (mergeStep_break_behaviour ⟨0, 7000, 1200, 0, 0⟩ []
      ⟨0, 500, ["a"], 1, 1, 500⟩ ⟨600, 1000, "b."⟩ (by decide)).2 (by decide) (by decide)
    obtain ⟨seg, h1, h2, h3⟩ := h
    exact ⟨seg, by simpa using h1, h2, h3⟩

/-! ### Worker failure path (C2) -/

lemma find?_update_map (f : JobRow → JobRow) (hid : ∀ r, (f r).id = r.id)
    (jobId : String) :
    ∀ jobs : List JobRow,
      (jobs.map (fun r => if r.id == jobId then f r else r)).find? (fun r => r.id == jobId) =
        (jobs.find? (fun r => r.id == jobId)).map f := by
  intro jobs
  induction jobs with
  | nil => rfl
  | cons a rest ih =>
    simp only [List.map_cons]
    by_cases ha : (a.id == jobId) = true
    · have hfa : ((f a).id == jobId) = true := by rw [hid a]; exact ha
      simp only [ha, if_true, List.find?]
      rw [hfa]
      rfl
    · have ha2 : (a.id == jobId) = false := by simpa using ha
      simp only [ha2, Bool.false_eq_true, if_false, List.find?]
      exact ih

lemma getCaptionJob_updateStatus (st : AppState) (jobId : String) (status : JobStatus)
    (bj : Option String) (err : Option (String × String)) (now : Nat) :
    getCaptionJob (updateCaptionJobStatus st jobId status bj err now) jobId =
      (getCaptionJob st jobId).map (fun r =>
        match err with
        | some (code, msg) =>
          { r with status := status, updatedAt := now, errorCode := some code, errorMessage := some msg }
        | none =>
          { r with status := status, bilingualJson := orNullStr bj, updatedAt := now, errorCode := none, errorMessage := none }) := by
  unfold getCaptionJob updateCaptionJobStatus
  exact find?_update_map _ (fun r => by cases err with
    | some p => cases p; rfl
    | none => rfl) jobId st.jobs

lemma getCaptionJob_incrementRetry (st : AppState) (jobId : String) (rb now : Nat)
    (r : JobRow) (h : getCaptionJob st jobId = some r) :
    getCaptionJob (incrementJobRetry st jobId rb now) jobId =
      some { r with retryCount := r.retryCount + 1, nextRetryAt := some (now + rb * 2 ^ (r.retryCount + 1 - 1)), updatedAt := now } := by
  unfold incrementJobRetry
  rw [h]
  show List.find? _ (st.jobs.map _) = _
  have := find?_update_map
    (fun x => { x with retryCount := r.retryCount + 1, nextRetryAt := some (now + rb * 2 ^ (r.retryCount + 1 - 1)), updatedAt := now })
    (fun x => rfl) jobId st.jobs
  rw [this]
  unfold getCaptionJob at h
  rw [h]
  rfl

/-- C2 (amended): the worker's failure path records
`errorCode = translation_error` and the message, computes
`delay = retryBaseMs · 2^retryCount` with the retry count taken **before**
the increment, sets `nextRetryAt = now + delay` and increments
`retryCount` — but it leaves `status = failed` instead of setting it back
to `pending`, and it sets `nextRetryAt` on every failure, even the last.
A failed job is retry-eligible for `getPendingJobs` exactly when
`retryCount < maxRetries` and its `nextRetryAt` has passed. -/
theorem processTask_failure_backoff (st : AppState) (task : TranslationTask)
    (msg : String) (retryBaseMs now maxRetries t : Nat) (r : JobRow)
    (hfind : getCaptionJob st task.id = some r) :
    ∃ r2, getCaptionJob (processTask st task (.error msg) retryBaseMs now) task.id =
        some r2 ∧
      r2.status = .failed ∧
      r2.errorCode = some "translation_error" ∧
      r2.errorMessage = some msg ∧
      r2.retryCount = r.retryCount + 1 ∧
      r2.nextRetryAt = some (now + retryBaseMs * 2 ^ r.retryCount) ∧
      pendingJobPred maxRetries t r2 =
        (decide (r.retryCount + 1 < maxRetries) &&
          decide (now + retryBaseMs * 2 ^ r.retryCount ≤ t)) := by
  unfold processTask
  have h1 := getCaptionJob_updateStatus st task.id .translating none none now
  rw [hfind] at h1
  have h2 := getCaptionJob_updateStatus
    (updateCaptionJobStatus st task.id .translating none none now) task.id .failed none
    (some ("translation_error", msg)) now
  rw [h1] at h2
  have h3 := getCaptionJob_incrementRetry
    (updateCaptionJobStatus (updateCaptionJobStatus st task.id .translating none none now)
      task.id .failed none (some ("translation_error", msg)) now)
    task.id retryBaseMs now _ h2
  refine ⟨_, h3, ?_, ?_, ?_, ?_, ?_, ?_⟩
  · rfl
  · rfl
  · rfl
  · rfl
  · simp
  · unfold pendingJobPred
    simp

/-- Witness for C2's amended theorem, at a concrete one-row state. -/
theorem processTask_failure_backoff_witness :
    ∃ r2, getCaptionJob (processTask
        ⟨[⟨"t1", "dQw4w9WgXcQ", "en", "asr", "json3", "h", .pending, 0, none, none, none,
          none, 50, 50, 99999⟩], 0, 0, [], []⟩
        ⟨"t1", ⟨"dQw4w9WgXcQ", "en", some "zh-CN", some "asr", some "json3", none⟩,
          "J", "h", 50⟩
        (.error "boom") 5000 1000) "t1" = some r2 ∧
      r2.status = .failed ∧
      r2.errorCode = some "translation_error" ∧
      r2.errorMessage = some "boom" ∧
      r2.retryCount = 0 + 1 ∧
      r2.nextRetryAt = some (1000 + 5000 * 2 ^ 0) ∧
      pendingJobPred 3 2000 r2 =
        (decide (0 + 1 < 3) && decide (1000 + 5000 * 2 ^ 0 ≤ 2000)) :=
  processTask_failure_backoff
    ⟨[⟨"t1", "dQw4w9WgXcQ", "en", "asr", "json3", "h", .pending, 0, none, none, none,
      none, 50, 50, 99999⟩], 0, 0, [], []⟩
    ⟨"t1", ⟨"dQw4w9WgXcQ", "en", some "zh-CN", some "asr", some "json3", none⟩, "J", "h", 50⟩
    "boom" 5000 1000 3 2000
    ⟨"t1", "dQw4w9WgXcQ", "en", "asr", "json3", "h", .pending, 0, none, none, none,
      none, 50, 50, 99999⟩
    (by decide)

/-- C2 counterexample: after a failed attempt with retry budget left
(`retryCount = 1 < maxRetries = 3`), the job row's status is `failed`,
**not** `pending` — `incrementJobRetry` never touches `status`, refuting
`sets status back to pending`. -/
theorem processTask_failure_status_counterexample :
    (processTask
        ⟨[⟨"t1", "dQw4w9WgXcQ", "en", "asr", "json3", "h", .pending, 0, none, none, none,
          none, 50, 50, 99999⟩], 0, 0, [], []⟩
        ⟨"t1", ⟨"dQw4w9WgXcQ", "en", some "zh-CN", some "asr", some "json3", none⟩,
          "J", "h", 50⟩
        (.error "boom") 5000 1000).jobs =
      [⟨"t1", "dQw4w9WgXcQ", "en", "asr", "json3", "h", .failed, 1, some 6000,
        some "translation_error", some "boom", none, 50, 1000, 99999⟩] ∧
      (1 : Nat) < 3 ∧ JobStatus.failed ≠ JobStatus.pending := by
  decide

/-! ### Cache lookup and the RequestKey (C3) -/

lemma selectFold_mono (vid lang : Option String) :
    ∀ (jobs : List JobRow) (acc : Option JobRow) (r : JobRow),
      jobs.foldl (fun best r =>
        if rowMatches vid lang r then
          match best with
          | none => some r
          | some b => if b.createdAt < r.createdAt then some r else some b
        else best) acc = some r →
      ∀ b, acc = some b → b.createdAt ≤ r.createdAt := by
  intro jobs
  induction jobs with
  | nil =>
    intro acc r h b hb
    rw [List.foldl_nil] at h
    rw [hb] at h
    cases h
    exact le_rfl
  | cons a rest ih =>
    intro acc r h b hb
    rw [List.foldl_cons] at h
    by_cases hm : rowMatches vid lang a = true
    · simp only [hm, if_true] at h
      subst hb
      by_cases hlt : b.createdAt < a.createdAt
      · simp only [hlt, if_true] at h
        have := ih _ r h a rfl
        omega
      · simp only [hlt, if_false] at h
        exact ih _ r h b rfl
    · simp only [hm, if_false] at h
      exact ih _ r h b hb

lemma selectFold_shape (vid lang : Option String) :
    ∀ (jobs : List JobRow) (acc : Option JobRow) (r : JobRow),
      jobs.foldl (fun best r =>
        if rowMatches vid lang r then
          match best with
          | none => some r
          | some b => if b.createdAt < r.createdAt then some r else some b
        else best) acc = some r →
      acc = some r ∨ (r ∈ jobs ∧ rowMatches vid lang r = true) := by
  intro jobs
  induction jobs with
  | nil =>
    intro acc r h
    rw [List.foldl_nil] at h
    exact Or.inl h
  | cons a rest ih =>
    intro acc r h
    rw [List.foldl_cons] at h
    by_cases hm : rowMatches vid lang a = true
    · simp only [hm, if_true] at h
      cases acc with
      | none =>
        rcases ih _ r h with he | ⟨hmem, hmr⟩
        · cases he
          exact Or.inr ⟨List.mem_cons_self a rest, hm⟩
        · exact Or.inr ⟨List.mem_cons_of_mem a hmem, hmr⟩
      | some b =>
        by_cases hlt : b.createdAt < a.createdAt
        · simp only [hlt, if_true] at h
          rcases ih _ r h with he | ⟨hmem, hmr⟩
          · cases he
            exact Or.inr ⟨List.mem_cons_self a rest, hm⟩
          · exact Or.inr ⟨List.mem_cons_of_mem a hmem, hmr⟩
        · simp only [hlt, if_false] at h
          rcases ih _ r h with he | ⟨hmem, hmr⟩
          · exact Or.inl he
          · exact Or.inr ⟨List.mem_cons_of_mem a hmem, hmr⟩
    · simp only [hm, if_false] at h
      rcases ih _ r h with he | ⟨hmem, hmr⟩
      · exact Or.inl he
      · exact Or.inr ⟨List.mem_cons_of_mem a hmem, hmr⟩

lemma selectFold_max (vid lang : Option String) :
    ∀ (jobs : List JobRow) (acc : Option JobRow) (r : JobRow),
      jobs.foldl (fun best r =>
        if rowMatches vid lang r then
          match best with
          | none => some r
          | some b => if b.createdAt < r.createdAt then some r else some b
        else best) acc = some r →
      ∀ r2 ∈ jobs, rowMatches vid lang r2 = true → r2.createdAt ≤ r.createdAt := by
  intro jobs
  induction jobs with
  | nil => intro acc r _ r2 h2; simp at h2
  | cons a rest ih =>
    intro acc r h r2 h2 hm2
    rw [List.foldl_cons] at h
    rcases List.mem_cons.mp h2 with rfl | hmem
    · simp only [hm2, if_true] at h
      cases acc with
      | none => exact selectFold_mono vid lang rest _ r h r2 rfl
      | some b =>
        by_cases hlt : b.createdAt < r2.createdAt
        · simp only [hlt, if_true] at h
          exact selectFold_mono vid lang rest _ r h r2 rfl
        · simp only [hlt, if_false] at h
          have := selectFold_mono vid lang rest _ r h b rfl
          omega
    · exact ih _ r h r2 hmem hm2

lemma selectMostRecentDone_spec (jobs : List JobRow) (vid lang : Option String)
    (r : JobRow) (h : selectMostRecentDone jobs vid lang = some r) :
    (r ∈ jobs ∧ rowMatches vid lang r = true) ∧
      ∀ r2 ∈ jobs, rowMatches vid lang r2 = true → r2.createdAt ≤ r.createdAt := by
  unfold selectMostRecentDone at h
  constructor
  · rcases selectFold_shape vid lang jobs none r h with he | hr
    · simp at he
    · exact hr
  · exact selectFold_max vid lang jobs none r h

/-- C3 (amended): on a memory miss `getBilingualSubtitle` keys the store
lookup on the **first two** `|`-components of the cache key only — the
`videoId` and source `lang` — so any two keys agreeing there (for
instance differing only in `targetLang`, `track` or `fmt`) receive the
same store-layer result, and the selected row is a most recent `done` row
for `(videoId, lang)` regardless of `sourceHash`, `track`, `fmt` or
`targetLang`. -/
theorem getBilingualSubtitle_first_two_components (st : AppState) (k1 k2 : String)
    (h1 : st.lru.lookup k1 = none) (h2 : st.lru.lookup k2 = none)
    (hp0 : keyPart k1 0 = keyPart k2 0) (hp1 : keyPart k1 1 = keyPart k2 1) :
    (getBilingualSubtitle st k1).1 = (getBilingualSubtitle st k2).1 ∧
      ∀ r, selectMostRecentDone st.jobs (keyPart k1 0) (keyPart k1 1) = some r →
        (r ∈ st.jobs ∧ rowMatches (keyPart k1 0) (keyPart k1 1) r = true) ∧
        ∀ r2 ∈ st.jobs, rowMatches (keyPart k1 0) (keyPart k1 1) r2 = true →
          r2.createdAt ≤ r.createdAt := by
  constructor
  · unfold getBilingualSubtitle
    rw [h1, h2]
    dsimp only
    unfold storeLookup
    rw [hp0, hp1]
    cases selectMostRecentDone st.jobs (keyPart k2 0) (keyPart k2 1) with
    | none => rfl
    | some row =>
      dsimp only
      cases row.bilingualJson with
      | none => rfl
      | some b =>
        dsimp only
        by_cases hb : b = "" <;> simp [hb]
  · intro r hr
    exact selectMostRecentDone_spec st.jobs _ _ r hr

/-- Witness for C3's amended theorem: two keys differing only in the
target language receive the same (shared) bilingual result. -/
theorem getBilingualSubtitle_first_two_components_witness :
    (getBilingualSubtitle
        ⟨[⟨"j1", "dQw4w9WgXcQ", "en", "asr", "json3", "h1", .done, 0, none, none, none,
          some "BILINGUAL", 10, 10, 99999⟩], 0, 0, [], []⟩
        "dQw4w9WgXcQ|en|zh-CN|asr|json3").1 =
      (getBilingualSubtitle
        ⟨[⟨"j1", "dQw4w9WgXcQ", "en", "asr", "json3", "h1", .done, 0, none, none, none,
          some "BILINGUAL", 10, 10, 99999⟩], 0, 0, [], []⟩
        "dQw4w9WgXcQ|en|ja|asr|json3").1 :=
  (getBilingualSubtitle_first_two_components
    ⟨[⟨"j1", "dQw4w9WgXcQ", "en", "asr", "json3", "h1", .done, 0, none, none, none,
      some "BILINGUAL", 10, 10, 99999⟩], 0, 0, [], []⟩
    "dQw4w9WgXcQ|en|zh-CN|asr|json3" "dQw4w9WgXcQ|en|ja|asr|json3"
    rfl rfl (by decide) (by decide)).1

/-- C3 counterexample: a single `done` row for `(dQw4w9WgXcQ, en)` is
served for **both** the `zh-CN` and the `ja` RequestKey — two requests
whose RequestKeys differ (only in `targetLang`) share a cached bilingual
result, refuting `never share`. -/
theorem getBilingualSubtitle_crosstalk :
    (getBilingualSubtitle
        ⟨[⟨"j1", "dQw4w9WgXcQ", "en", "asr", "json3", "h1", .done, 0, none, none, none,
          some "BILINGUAL", 10, 10, 99999⟩], 0, 0, [], []⟩
        "dQw4w9WgXcQ|en|zh-CN|asr|json3").1 = some "BILINGUAL" ∧
      (getBilingualSubtitle
        ⟨[⟨"j1", "dQw4w9WgXcQ", "en", "asr", "json3", "h1", .done, 0, none, none, none,
          some "BILINGUAL", 10, 10, 99999⟩], 0, 0, [], []⟩
        "dQw4w9WgXcQ|en|ja|asr|json3").1 = some "BILINGUAL" ∧
      ("dQw4w9WgXcQ|en|zh-CN|asr|json3" : String) ≠ "dQw4w9WgXcQ|en|ja|asr|json3" := by
  decide

/-! ### Upstream failure handling (C8) -/

lemma selectMostRecentDone_none {jobs : List JobRow} {vid lang : Option String}
    (h : ∀ r ∈ jobs, rowMatches vid lang r = false) :
    selectMostRecentDone jobs vid lang = none := by
  unfold selectMostRecentDone
  induction jobs with
  | nil => rfl
  | cons a rest ih =>
    rw [List.foldl_cons]
    have ha := h a (List.mem_cons_self a rest)
    simp only [ha, if_false]
    exact ih (fun r hr => h r (List.mem_cons_of_mem a hr))

lemma getBilingualSubtitle_miss_eq {st : AppState} {k : String}
    (hlru : st.lru.lookup k = none)
    (hnd : ∀ r ∈ st.jobs, rowMatches (keyPart k 0) (keyPart k 1) r = false) :
    getBilingualSubtitle st k = (none, { st with cacheMisses := st.cacheMisses + 1 }) := by
  unfold getBilingualSubtitle
  rw [hlru]
  unfold storeLookup
  rw [selectMostRecentDone_none hnd]

/-- C8 (amended): when a valid request misses the cache and the upstream
fetch fails, the endpoint replies `503` with body
`{error: youtube_api_error, message}`, creates no job row and enqueues no
task — but the `cache_misses` counter **has** been incremented by the
cache lookup that preceded the fetch (`cache_hits` is unchanged), so the
counters are not unchanged. -/
theorem handleSubtitle_upstream_failure (st : AppState) (q : QueryParams)
    (e taskId : String) (now ttlMs : Nat)
    (hv : isValidVideoId (requestParams q).v = true)
    (hl : ¬((requestParams q).lang = "" ∨ (requestParams q).lang.length > 10))
    (hlru : st.lru.lookup (generateCacheKey (requestParams q)) = none)
    (hnd : ∀ r ∈ st.jobs,
      rowMatches (keyPart (generateCacheKey (requestParams q)) 0)
        (keyPart (generateCacheKey (requestParams q)) 1) r = false) :
    handleSubtitle st q (.error e) taskId now ttlMs =
      (⟨503, .errorJson "youtube_api_error" e, none, none⟩,
        { st with cacheMisses := st.cacheMisses + 1 }) := by
  unfold handleSubtitle
  dsimp only
  rw [hv]
  simp only [Bool.true_eq_false, if_false, hl, if_false]
  rw [getBilingualSubtitle_miss_eq hlru hnd]

/-- Witness for C8's amended theorem at a concrete state. -/
theorem handleSubtitle_upstream_failure_witness :
    handleSubtitle ⟨[], 0, 0, [], []⟩
        ⟨some "dQw4w9WgXcQ", some "en", none, none, none, none⟩
        (.error "YouTube API returned 500") "t1" 100 1000 =
      (⟨503, .errorJson "youtube_api_error" "YouTube API returned 500", none, none⟩,
        { (⟨[], 0, 0, [], []⟩ : AppState) with cacheMisses := 0 + 1 }) :=
  handleSubtitle_upstream_failure ⟨[], 0, 0, [], []⟩
    ⟨some "dQw4w9WgXcQ", some "en", none, none, none, none⟩
    "YouTube API returned 500" "t1" 100 1000
    (by decide) (by decide) rfl (by decide)

/-- C8 counterexample: on an upstream failure the reply is indeed `503`
`youtube_api_error` and no job row appears — but `cache_misses` moves
from `0` to `1`, refuting `the cache_hits/cache_misses counters are
unchanged by the request`. -/
theorem handleSubtitle_failure_counter_increment :
    (handleSubtitle ⟨[], 0, 0, [], []⟩
        ⟨some "dQw4w9WgXcQ", some "en", none, none, none, none⟩
        (.error "YouTube API returned 500") "t1" 100 1000).1 =
      ⟨503, .errorJson "youtube_api_error" "YouTube API returned 500", none, none⟩ ∧
      (handleSubtitle ⟨[], 0, 0, [], []⟩
        ⟨some "dQw4w9WgXcQ", some "en", none, none, none, none⟩
        (.error "YouTube API returned 500") "t1" 100 1000).2.jobs = [] ∧
      (handleSubtitle ⟨[], 0, 0, [], []⟩
        ⟨some "dQw4w9WgXcQ", some "en", none, none, none, none⟩
        (.error "YouTube API returned 500") "t1" 100 1000).2.cacheMisses = 1 ∧
      ¬((handleSubtitle ⟨[], 0, 0, [], []⟩
        ⟨some "dQw4w9WgXcQ", some "en", none, none, none, none⟩
        (.error "YouTube API returned 500") "t1" 100 1000).2.cacheMisses = 0) := by
  decide

/-! ### No single-flight under concurrent identical requests (C1) -/

lemma handle_miss_state (st : AppState) (q : QueryParams) (payload taskId : String)
    (now ttlMs : Nat)
    (hv : isValidVideoId (requestParams q).v = true)
    (hl : ¬((requestParams q).lang = "" ∨ (requestParams q).lang.length > 10))
    (hlru : st.lru.lookup (generateCacheKey (requestParams q)) = none)
    (hnd : ∀ r ∈ st.jobs,
      rowMatches (keyPart (generateCacheKey (requestParams q)) 0)
        (keyPart (generateCacheKey (requestParams q)) 1) r = false) :
    (handleSubtitle st q (.ok payload) taskId now ttlMs).2 =
      enqueueTranslation { st with cacheMisses := st.cacheMisses + 1 } (requestParams q)
        payload (generateSourceHash payload) taskId now ttlMs := by
  unfold handleSubtitle
  dsimp only
  rw [hv]
  simp only [Bool.true_eq_false, if_false, hl, if_false]
  rw [getBilingualSubtitle_miss_eq hlru hnd]
  dsimp only
  by_cases hf : orDefault q.fmt "json3" = "vtt" <;> simp [hf]

lemma enqueue_taskQueue (st : AppState) (p : SubtitleRequest)
    (payload hash taskId : String) (now ttlMs : Nat) :
    (enqueueTranslation st p payload hash taskId now ttlMs).taskQueue =
      st.taskQueue ++ [⟨taskId, p, payload, hash, now⟩] := by
  unfold enqueueTranslation createCaptionJob
  dsimp only
  split <;> rfl

lemma enqueue_lru (st : AppState) (p : SubtitleRequest)
    (payload hash taskId : String) (now ttlMs : Nat) :
    (enqueueTranslation st p payload hash taskId now ttlMs).lru = st.lru := by
  unfold enqueueTranslation createCaptionJob
  dsimp only
  split <;> rfl

lemma countKey_update_map (jobs : List JobRow) (g : JobRow → JobRow)
    (v l t f h : String) (hg : ∀ r, sameKey (g r) v l t f h = sameKey r v l t f h) :
    countKey (jobs.map g) v l t f h = countKey jobs v l t f h := by
  unfold countKey
  induction jobs with
  | nil => rfl
  | cons a rest ih =>
    simp only [List.map_cons, List.filter_cons, hg a]
    by_cases ha : sameKey a v l t f h = true
    · simp only [ha, if_true, List.length_cons, ih]
    · simp only [ha, Bool.false_eq_true, if_false, ih]

lemma countKey_append_one (jobs : List JobRow) (row : JobRow) (v l t f h : String) :
    countKey (jobs ++ [row]) v l t f h =
      countKey jobs v l t f h + (if sameKey row v l t f h then 1 else 0) := by
  unfold countKey
  rw [List.filter_append, List.length_append]
  by_cases hs : sameKey row v l t f h = true <;> simp [hs]

lemma countKey_zero_iff_any (jobs : List JobRow) (v l t f h : String) :
    (countKey jobs v l t f h = 0) ↔
      (jobs.any (fun r => sameKey r v l t f h) = false) := by
  unfold countKey
  rw [List.length_eq_zero, List.filter_eq_nil, List.any_eq_false]

lemma enqueue_countKey (st : AppState) (p : SubtitleRequest)
    (payload hash taskId : String) (now ttlMs : Nat) :
    countKey (enqueueTranslation st p payload hash taskId now ttlMs).jobs
        p.v p.lang (orDefault p.kind "asr") (orDefault p.fmt "json3") hash =
      (if countKey st.jobs p.v p.lang (orDefault p.kind "asr") (orDefault p.fmt "json3")
          hash = 0 then 1 else 0) +
        countKey st.jobs p.v p.lang (orDefault p.kind "asr") (orDefault p.fmt "json3")
          hash := by
  unfold enqueueTranslation createCaptionJob
  dsimp only
  by_cases hany : st.jobs.any
      (fun r => sameKey r p.v p.lang (orDefault p.kind "asr") (orDefault p.fmt "json3")
        hash) = true
  · simp only [hany, if_true]
    have hz : ¬(countKey st.jobs p.v p.lang (orDefault p.kind "asr")
        (orDefault p.fmt "json3") hash = 0) := by
      rw [countKey_zero_iff_any]
      simp [hany]
    rw [countKey_update_map _ _ _ _ _ _ _ (fun r => by split <;> rfl)]
    simp [hz]
  · have hany2 : st.jobs.any
        (fun r => sameKey r p.v p.lang (orDefault p.kind "asr")
          (orDefault p.fmt "json3") hash) = false := by
      simpa using hany
    simp only [hany2, Bool.false_eq_true, if_false]
    rw [countKey_append_one]
    have hnew : sameKey
        ⟨taskId, p.v, p.lang, orDefault p.kind "asr", orDefault p.fmt "json3", hash,
          .pending, 0, none, none, none, orNullStr none, now, now, now + ttlMs⟩
        p.v p.lang (orDefault p.kind "asr") (orDefault p.fmt "json3") hash = true := by
      unfold sameKey
      simp
    rw [hnew]
    have hz := (countKey_zero_iff_any st.jobs p.v p.lang (orDefault p.kind "asr")
      (orDefault p.fmt "json3") hash).mpr hany2
    simp [hz]

lemma rowMatches_pending (vl ll : Option String) (r : JobRow)
    (h : r.status = .pending) : rowMatches vl ll r = false := by
  unfold rowMatches
  rw [h]
  simp [BEq.beq]

lemma createCaptionJob_nomatch {vl ll : Option String} (st : AppState)
    (p : NewJobParams) (now ttlMs : Nat)
    (hst : p.status = .pending)
    (hnd : ∀ r ∈ st.jobs, rowMatches vl ll r = false) :
    ∀ r ∈ (createCaptionJob st p now ttlMs).jobs, rowMatches vl ll r = false := by
  unfold createCaptionJob
  split
  · intro r hr
    simp only [List.mem_map] at hr
    obtain ⟨r0, hr0, hre⟩ := hr
    by_cases hs : sameKey r0 p.videoId p.lang p.track p.fmt p.sourceHash = true
    · simp only [hs, if_true] at hre
      subst hre
      exact rowMatches_pending vl ll _ hst
    · simp only [hs, Bool.false_eq_true, if_false] at hre
      subst hre
      exact hnd r0 hr0
  · intro r hr
    simp only [List.mem_append, List.mem_singleton] at hr
    rcases hr with hr | rfl
    · exact hnd r hr
    · exact rowMatches_pending vl ll _ hst

lemma enqueue_nomatch {vl ll : Option String} (st : AppState) (p : SubtitleRequest)
    (payload hash taskId : String) (now ttlMs : Nat)
    (hnd : ∀ r ∈ st.jobs, rowMatches vl ll r = false) :
    ∀ r ∈ (enqueueTranslation st p payload hash taskId now ttlMs).jobs,
      rowMatches vl ll r = false := by
  unfold enqueueTranslation
  exact createCaptionJob_nomatch _ _ now ttlMs rfl hnd

lemma drainTasks_count : ∀ (tasks : List TranslationTask) (st : AppState)
    (outcomes : List (Except String String)) (rb now : Nat),
    (drainTasks tasks st outcomes rb now).2 = tasks.length := by
  intro tasks
  induction tasks with
  | nil => intro st outcomes rb now; rfl
  | cons t rest ih =>
    intro st outcomes rb now
    unfold drainTasks
    dsimp only
    rw [ih]
    simp

lemma iterate_keep_one (q : QueryParams) (payload : String) (now ttlMs : Nat)
    (hv : isValidVideoId (requestParams q).v = true)
    (hl : ¬((requestParams q).lang = "" ∨ (requestParams q).lang.length > 10)) :
    ∀ (ids : List String) (st : AppState),
      st.lru.lookup (generateCacheKey (requestParams q)) = none →
      (∀ r ∈ st.jobs,
        rowMatches (keyPart (generateCacheKey (requestParams q)) 0)
          (keyPart (generateCacheKey (requestParams q)) 1) r = false) →
      countKey st.jobs (requestParams q).v (requestParams q).lang
        (orDefault (requestParams q).kind "asr") (orDefault (requestParams q).fmt "json3")
        (generateSourceHash payload) = 1 →
      countKey (iterateRequests st q (.ok payload) now ttlMs ids).jobs
          (requestParams q).v (requestParams q).lang
          (orDefault (requestParams q).kind "asr")
          (orDefault (requestParams q).fmt "json3") (generateSourceHash payload) = 1 ∧
        (iterateRequests st q (.ok payload) now ttlMs ids).taskQueue.length =
          st.taskQueue.length + ids.length := by
  intro ids
  induction ids with
  | nil => intro st _ _ hone; exact ⟨hone, rfl⟩
  | cons taskId rest ih =>
    intro st hlru hnd hone
    unfold iterateRequests
    rw [handle_miss_state st q payload taskId now ttlMs hv hl hlru hnd]
    have hmiss : ({ st with cacheMisses := st.cacheMisses + 1 } : AppState).jobs =
      st.jobs := rfl
    have h1 := enqueue_countKey { st with cacheMisses := st.cacheMisses + 1 }
      (requestParams q) payload (generateSourceHash payload) taskId now ttlMs
    rw [hmiss, hone] at h1
    simp only [if_neg (by omega : ¬(1 = 0))] at h1
    have h2 := ih (enqueueTranslation { st with cacheMisses := st.cacheMisses + 1 }
        (requestParams q) payload (generateSourceHash payload) taskId now ttlMs)
      (by rw [enqueue_lru]; exact hlru)
      (enqueue_nomatch _ _ _ _ _ _ _ (by rw [hmiss] at hnd ⊢; exact hnd))
      (by rw [h1])
    refine ⟨h2.1, ?_⟩
    rw [h2.2, enqueue_taskQueue]
    simp only [List.length_append, List.length_cons, List.length_nil]
    omega

/-- C1 (amended): the dispatcher performs **no** single-flight check —
neither an existing-active-job query nor an in-memory in-flight set
exists before `enqueueTranslation` — so `N` concurrent identical
cache-miss requests enqueue `N` translation tasks and the queue performs
`N` translations (one pipeline run per task).  Only the job-**row** part
of the claim holds: the upsert on the unique
`(videoId, lang, track, fmt, sourceHash)` key collapses the rows, so
exactly one row (hence at most one active job per key) exists afterwards. -/
theorem concurrent_miss_requests (ids : List String) (st : AppState) (q : QueryParams)
    (payload : String) (now ttlMs : Nat)
    (hv : isValidVideoId (requestParams q).v = true)
    (hl : ¬((requestParams q).lang = "" ∨ (requestParams q).lang.length > 10))
    (hlru : st.lru.lookup (generateCacheKey (requestParams q)) = none)
    (hnd : ∀ r ∈ st.jobs,
      rowMatches (keyPart (generateCacheKey (requestParams q)) 0)
        (keyPart (generateCacheKey (requestParams q)) 1) r = false)
    (hzero : countKey st.jobs (requestParams q).v (requestParams q).lang
      (orDefault (requestParams q).kind "asr") (orDefault (requestParams q).fmt "json3")
      (generateSourceHash payload) = 0) :
    countKey (iterateRequests st q (.ok payload) now ttlMs ids).jobs
        (requestParams q).v (requestParams q).lang
        (orDefault (requestParams q).kind "asr") (orDefault (requestParams q).fmt "json3")
        (generateSourceHash payload) = min 1 ids.length ∧
      (iterateRequests st q (.ok payload) now ttlMs ids).taskQueue.length =
        st.taskQueue.length + ids.length ∧
      ∀ (outcomes : List (Except String String)) (rb now2 : Nat),
        (drainQueue (iterateRequests st q (.ok payload) now ttlMs ids) outcomes
          rb now2).2 = st.taskQueue.length + ids.length := by
  have main : countKey (iterateRequests st q (.ok payload) now ttlMs ids).jobs
      (requestParams q).v (requestParams q).lang
      (orDefault (requestParams q).kind "asr") (orDefault (requestParams q).fmt "json3")
      (generateSourceHash payload) = min 1 ids.length ∧
      (iterateRequests st q (.ok payload) now ttlMs ids).taskQueue.length =
        st.taskQueue.length + ids.length := by
    cases ids with
    | nil => exact ⟨by simpa using hzero, rfl⟩
    | cons taskId rest =>
      unfold iterateRequests
      rw [handle_miss_state st q payload taskId now ttlMs hv hl hlru hnd]
      have hmiss : ({ st with cacheMisses := st.cacheMisses + 1 } : AppState).jobs =
        st.jobs := rfl
      have h1 := enqueue_countKey { st with cacheMisses := st.cacheMisses + 1 }
        (requestParams q) payload (generateSourceHash payload) taskId now ttlMs
      rw [hmiss, hzero] at h1
      simp at h1
      have h2 := iterate_keep_one q payload now ttlMs hv hl rest
        (enqueueTranslation { st with cacheMisses := st.cacheMisses + 1 }
          (requestParams q) payload (generateSourceHash payload) taskId now ttlMs)
        (by rw [enqueue_lru]; exact hlru)
        (enqueue_nomatch _ _ _ _ _ _ _ (by rw [hmiss] at hnd ⊢; exact hnd))
        (by rw [h1])
      refine ⟨by rw [h2.1]; simp, ?_⟩
      rw [h2.2, enqueue_taskQueue]
      simp only [List.length_append, List.length_cons, List.length_nil]
      omega
  refine ⟨main.1, main.2, ?_⟩
  intro outcomes rb now2
  unfold drainQueue
  rw [drainTasks_count]
  exact main.2

/-- Witness for C1's amended theorem: two identical requests from the
empty state. -/
theorem concurrent_miss_requests_witness :
    countKey (iterateRequests ⟨[], 0, 0, [], []⟩
        ⟨some "dQw4w9WgXcQ", some "en", none, none, none, none⟩
        (.ok "PAYLOAD") 100 1000 ["t1", "t2"]).jobs
        (requestParams ⟨some "dQw4w9WgXcQ", some "en", none, none, none, none⟩).v
        (requestParams ⟨some "dQw4w9WgXcQ", some "en", none, none, none, none⟩).lang
        (orDefault (requestParams
          ⟨some "dQw4w9WgXcQ", some "en", none, none, none, none⟩).kind "asr")
        (orDefault (requestParams
          ⟨some "dQw4w9WgXcQ", some "en", none, none, none, none⟩).fmt "json3")
        (generateSourceHash "PAYLOAD") = min 1 (["t1", "t2"] : List String).length ∧
      (iterateRequests ⟨[], 0, 0, [], []⟩
        ⟨some "dQw4w9WgXcQ", some "en", none, none, none, none⟩
        (.ok "PAYLOAD") 100 1000 ["t1", "t2"]).taskQueue.length =
        (⟨[], 0, 0, [], []⟩ : AppState).taskQueue.length +
          (["t1", "t2"] : List String).length ∧
      ∀ (outcomes : List (Except String String)) (rb now2 : Nat),
        (drainQueue (iterateRequests ⟨[], 0, 0, [], []⟩
          ⟨some "dQw4w9WgXcQ", some "en", none, none, none, none⟩
          (.ok "PAYLOAD") 100 1000 ["t1", "t2"]) outcomes rb now2).2 =
          (⟨[], 0, 0, [], []⟩ : AppState).taskQueue.length +
            (["t1", "t2"] : List String).length :=
  concurrent_miss_requests ["t1", "t2"] ⟨[], 0, 0, [], []⟩
    ⟨some "dQw4w9WgXcQ", some "en", none, none, none, none⟩ "PAYLOAD" 100 1000
    (by decide) (by decide) rfl (by decide) (by decide)

/-- C1 counterexample: two identical cache-miss requests create exactly
one job row — but **two** queued translation tasks, and draining the
queue runs the translation pipeline twice, refuting `exactly one
translation is performed`. -/
theorem concurrent_miss_requests_two_translations :
    countKey (iterateRequests ⟨[], 0, 0, [], []⟩
        ⟨some "dQw4w9WgXcQ", some "en", none, none, none, none⟩
        (.ok "PAYLOAD") 100 1000 ["t1", "t2"]).jobs
        "dQw4w9WgXcQ" "en" "asr" "json3" (generateSourceHash "PAYLOAD") = 1 ∧
      (drainQueue (iterateRequests ⟨[], 0, 0, [], []⟩
        ⟨some "dQw4w9WgXcQ", some "en", none, none, none, none⟩
        (.ok "PAYLOAD") 100 1000 ["t1", "t2"]) [.ok "W1", .ok "W2"] 5000 200).2 = 2 ∧
      (2 : Nat) ≠ 1 := by
  decide

end YtProxy
